import Mathlib

/-!
Shallow embedding of the mcp-consensus server core (`src/index.ts`, in the
revision with the concurrent advisor fan-out and the terminal summary round,
`src/unnamed/part_001`) used to check the specification's claims.

The outbound network call made by `queryAdvisor` is the only effect of the
core; it is abstracted by oracles that give, per round and advisor, the
settled outcome of the call: either the returned message content (possibly
absent or empty) or a thrown transport error.  Everything else - input
validation, the directive scan, the agreement evaluation, the round loop,
the ledger, the summary round and the result payloads - is translated
directly from the source.
-/

/-- Left curly bracket, written through its code point so that the character
itself never appears in the file. -/
def lbrace : Char := Char.ofNat 123

/-- Right curly bracket, written through its code point. -/
def rbrace : Char := Char.ofNat 125

/-! ### JSON values and `JSON.parse`

`parseToolRequests` calls the JavaScript builtin `JSON.parse` on the text
captured for the `parameters` group; the program never inspects the parsed
value (field `parameters: Record<string, any>` is carried opaquely), so the
model only needs `JSON.parse` as an acceptor that returns a structured value.
Numbers keep their source lexeme: the program does no arithmetic on them. -/

/-- Values produced by `JSON.parse`, as far as this program carries them. -/
inductive Json where
  | null
  | bool (b : Bool)
  | num (lexeme : String)
  | str (s : String)
  | arr (elements : List Json)
  | obj (fields : List (String × Json))

/-- JSON insignificant whitespace (RFC 8259: space, tab, line feed, carriage
return). -/
def isJsonWs (c : Char) : Bool :=
  c = ' ' || c = '\t' || c = '\n' || c = '\r'

/-- Drop leading JSON whitespace. -/
def jsonSkipWs (s : List Char) : List Char := s.dropWhile isJsonWs

/-- Hexadecimal digit test for `\u` escapes. -/
def isHexDig (c : Char) : Bool :=
  c.isDigit || ('a' ≤ c && c ≤ 'f') || ('A' ≤ c && c ≤ 'F')

/-- Value of a hexadecimal digit. -/
def hexVal (c : Char) : Nat :=
  if c.isDigit then c.toNat - '0'.toNat
  else if 'a' ≤ c && c ≤ 'f' then c.toNat - 'a'.toNat + 10
  else c.toNat - 'A'.toNat + 10

/-- Body of a JSON string after the opening quote: decodes escapes, rejects
raw control characters, and stops at the closing quote.  (`\u` escapes are
modelled by `Char.ofNat` of the code unit; the program never reads the
decoded text, only whether parsing succeeds.)  The first argument is a fuel
counter that keeps the recursion structural; every step consumes at least
one input character, so the fuel passed by the callers (input length plus
one) is never exhausted. -/
def jsonStringAux : Nat → List Char → List Char → Option (String × List Char)
  | 0, _, _ => none
  | _ + 1, _, [] => none
  | fuel + 1, acc, c :: rest =>
    if c = '"' then some (String.mk acc.reverse, rest)
    else if c = '\\' then
      match rest with
      | [] => none
      | e :: rest2 =>
        if e = '"' || e = '\\' || e = '/' then jsonStringAux fuel (e :: acc) rest2
        else if e = 'b' then jsonStringAux fuel (Char.ofNat 8 :: acc) rest2
        else if e = 'f' then jsonStringAux fuel (Char.ofNat 12 :: acc) rest2
        else if e = 'n' then jsonStringAux fuel ('\n' :: acc) rest2
        else if e = 'r' then jsonStringAux fuel ('\r' :: acc) rest2
        else if e = 't' then jsonStringAux fuel ('\t' :: acc) rest2
        else if e = 'u' then
          match rest2 with
          | h1 :: h2 :: h3 :: h4 :: rest3 =>
            if isHexDig h1 && isHexDig h2 && isHexDig h3 && isHexDig h4 then
              jsonStringAux fuel
                (Char.ofNat (((hexVal h1 * 16 + hexVal h2) * 16 + hexVal h3) * 16 + hexVal h4)
                  :: acc) rest3
            else none
          | _ => none
        else none
    else if c.toNat < 32 then none
    else jsonStringAux fuel (c :: acc) rest

/-- One or more decimal digits. -/
def digits1 (s : List Char) : Option (List Char × List Char) :=
  let t := s.takeWhile Char.isDigit
  if t.isEmpty then none else some (t, s.drop t.length)

/-- Optional JSON fraction part (`.` digits). -/
def parseJsonFrac (s : List Char) : Option (List Char × List Char) :=
  match s with
  | '.' :: r =>
    match digits1 r with
    | some (d, r2) => some ('.' :: d, r2)
    | none => none
  | _ => some ([], s)

/-- Optional JSON exponent part (`e`/`E`, optional sign, digits). -/
def parseJsonExp (s : List Char) : Option (List Char × List Char) :=
  match s with
  | c :: r =>
    if c = 'e' || c = 'E' then
      match r with
      | sc :: r2 =>
        if sc = '+' || sc = '-' then
          match digits1 r2 with
          | some (d, r3) => some (c :: sc :: d, r3)
          | none => none
        else
          match digits1 r with
          | some (d, r3) => some (c :: d, r3)
          | none => none
      | [] => none
    else some ([], s)
  | [] => some ([], s)

/-- JSON number (integer part `0` or nonzero-led digits, optional fraction
and exponent); the lexeme is kept verbatim. -/
def parseJsonNumber (s : List Char) : Option (Json × List Char) :=
  let p : List Char × List Char :=
    match s with
    | '-' :: rest => (['-'], rest)
    | _ => ([], s)
  match p.2 with
  | [] => none
  | c :: rest =>
    if c = '0' then
      match parseJsonFrac rest with
      | some (fracP, s3) =>
        match parseJsonExp s3 with
        | some (expP, s4) => some (Json.num (String.mk (p.1 ++ [c] ++ fracP ++ expP)), s4)
        | none => none
      | none => none
    else if c.isDigit then
      let ds := rest.takeWhile Char.isDigit
      let s2 := rest.drop ds.length
      match parseJsonFrac s2 with
      | some (fracP, s3) =>
        match parseJsonExp s3 with
        | some (expP, s4) => some (Json.num (String.mk (p.1 ++ [c] ++ ds ++ fracP ++ expP)), s4)
        | none => none
      | none => none
    else none

mutual

/-- JSON value parser; `fuel` bounds the nesting recursion (callers pass the
input length plus one, which every actual input stays under since each
nested value sits behind at least one consumed character). -/
def parseJsonValue : Nat → List Char → Option (Json × List Char)
  | 0, _ => none
  | fuel + 1, s =>
    match jsonSkipWs s with
    | [] => none
    | c :: rest =>
      if c = 'n' then
        match rest with
        | 'u' :: 'l' :: 'l' :: r => some (Json.null, r)
        | _ => none
      else if c = 't' then
        match rest with
        | 'r' :: 'u' :: 'e' :: r => some (Json.bool true, r)
        | _ => none
      else if c = 'f' then
        match rest with
        | 'a' :: 'l' :: 's' :: 'e' :: r => some (Json.bool false, r)
        | _ => none
      else if c = '"' then
        match jsonStringAux (rest.length + 1) [] rest with
        | some (str, r) => some (Json.str str, r)
        | none => none
      else if c = '[' then
        match jsonSkipWs rest with
        | c2 :: r1 =>
          if c2 = ']' then some (Json.arr [], r1)
          else
            match parseJsonElements fuel rest with
            | some (vs, r) => some (Json.arr vs, r)
            | none => none
        | [] => none
      else if c = lbrace then
        match jsonSkipWs rest with
        | c2 :: r1 =>
          if c2 = rbrace then some (Json.obj [], r1)
          else
            match parseJsonMembers fuel rest with
            | some (fs, r) => some (Json.obj fs, r)
            | none => none
        | [] => none
      else parseJsonNumber (c :: rest)

/-- Nonempty member list of a JSON object, consuming the closing bracket. -/
def parseJsonMembers : Nat → List Char → Option (List (String × Json) × List Char)
  | 0, _ => none
  | fuel + 1, s =>
    match jsonSkipWs s with
    | c :: rest =>
      if c = '"' then
        match jsonStringAux (rest.length + 1) [] rest with
        | some (key, r1) =>
          match jsonSkipWs r1 with
          | ':' :: r3 =>
            match parseJsonValue fuel r3 with
            | some (v, r4) =>
              match jsonSkipWs r4 with
              | c2 :: r6 =>
                if c2 = ',' then
                  match parseJsonMembers fuel r6 with
                  | some (fs, r) => some ((key, v) :: fs, r)
                  | none => none
                else if c2 = rbrace then some ([(key, v)], r6)
                else none
              | [] => none
            | none => none
          | _ => none
        | none => none
      else none
    | [] => none

/-- Nonempty element list of a JSON array, consuming the closing bracket. -/
def parseJsonElements : Nat → List Char → Option (List Json × List Char)
  | 0, _ => none
  | fuel + 1, s =>
    match parseJsonValue fuel s with
    | some (v, r1) =>
      match jsonSkipWs r1 with
      | c :: r3 =>
        if c = ',' then
          match parseJsonElements fuel r3 with
          | some (vs, r) => some (v :: vs, r)
          | none => none
        else if c = ']' then some ([v], r3)
        else none
      | [] => none
    | none => none

end

/-- Model of the JavaScript builtin `JSON.parse`: parse one value, allow
surrounding whitespace, require the whole input to be consumed. -/
def jsonParse (s : String) : Option Json :=
  match parseJsonValue (s.length + 1) s.toList with
  | some (v, rest) => if (jsonSkipWs rest).isEmpty then some v else none
  | none => none

/-! ### The directive scan (`parseToolRequests`)

The source scans the response with the global regular expression

  `TOOL_REQUEST:\s*[lb]\s*"tool":\s*"([^"]+)"\s*,\s*"parameters":\s*([lb][^rb]+[rb])\s*,\s*"reason":\s*"([^"]+)"\s*[rb]`

(`[lb]`/`[rb]` stand for the bracket characters).  Inside this pattern every
greedy piece (`\s*`, `[^"]+`, `[^rb]+`) is followed by a literal that its
character class excludes, so maximal munch is the only way an attempt can
succeed and no backtracking is possible; an attempt either succeeds with the
maximal-munch split or fails.  `exec` with the `g` flag yields the leftmost
match from the current position and resumes after its end.  The model below
implements exactly that: `matchToolRequestAt` is one anchored attempt,
`scanToolRequests` tries every position left to right and skips past each
match. -/

/-- Advisor-embedded information request (source `interface ToolRequest`). -/
structure ToolRequest where
  tool : String
  parameters : Json
  reason : String

/-- Whitespace class `\s` of JavaScript regular expressions, modelled over
the common whitespace characters. -/
def jsSpace (c : Char) : Bool := c.isWhitespace

/-- Consume an exact literal. -/
def dropLit : List Char → List Char → Option (List Char)
  | [], s => some s
  | _ :: _, [] => none
  | c :: cs, x :: xs => if x = c then dropLit cs xs else none

/-- Consume `\s*` (maximal munch). -/
def dropSpaces (s : List Char) : List Char := s.dropWhile jsSpace

/-- Consume one-or-more characters satisfying `p` (maximal munch), as for
the character classes `[^"]+` and the bracketed parameters capture. -/
def takeWhile1 (p : Char → Bool) (s : List Char) : Option (List Char × List Char) :=
  let t := s.takeWhile p
  if t.isEmpty then none else some (t, s.drop t.length)

/-- Anchored attempt, first third: the marker, the opening bracket, the
`"tool"` key and its quoted capture. -/
def matchToolPart (s : List Char) : Option (List Char × List Char) := do
  let s ← dropLit "TOOL_REQUEST:".toList s
  let s ← dropLit [lbrace] (dropSpaces s)
  let s ← dropLit "\"tool\":".toList (dropSpaces s)
  let s ← dropLit ['"'] (dropSpaces s)
  let (tool, s) ← takeWhile1 (fun c => c ≠ '"') s
  let s ← dropLit ['"'] s
  return (tool, s)

/-- Anchored attempt, second third: the comma, the `"parameters"` key and
the bracketed capture (whose interior excludes the closing bracket). -/
def matchParamsPart (s : List Char) : Option (List Char × List Char) := do
  let s ← dropLit [','] (dropSpaces s)
  let s ← dropLit "\"parameters\":".toList (dropSpaces s)
  let s ← dropLit [lbrace] (dropSpaces s)
  let (inner, s) ← takeWhile1 (fun c => c ≠ rbrace) s
  let s ← dropLit [rbrace] s
  return (inner, s)

/-- Anchored attempt, last third: the comma, the `"reason"` key, its quoted
capture and the closing bracket of the directive. -/
def matchReasonPart (s : List Char) : Option (List Char × List Char) := do
  let s ← dropLit [','] (dropSpaces s)
  let s ← dropLit "\"reason\":".toList (dropSpaces s)
  let s ← dropLit ['"'] (dropSpaces s)
  let (reason, s) ← takeWhile1 (fun c => c ≠ '"') s
  let s ← dropLit ['"'] s
  let s ← dropLit [rbrace] (dropSpaces s)
  return (reason, s)

/-- One anchored attempt of the directive pattern at the head of `s`;
returns the three captures (capability name, raw parameters text with its
brackets, reason) and the remainder after the match. -/
def matchToolRequestAt (s : List Char) : Option ((String × String × String) × List Char) := do
  let (tool, s1) ← matchToolPart s
  let (inner, s2) ← matchParamsPart s1
  let (reason, s3) ← matchReasonPart s2
  return ((String.mk tool, String.mk (lbrace :: (inner ++ [rbrace])), String.mk reason), s3)

theorem dropLit_length {lit : List Char} :
    ∀ {s r : List Char}, dropLit lit s = some r → r.length + lit.length = s.length := by
  induction lit with
  | nil => intro s r h; simp [dropLit] at h; simp [h]
  | cons c cs ih =>
    intro s r h
    match s with
    | [] => simp [dropLit] at h
    | x :: xs =>
      simp only [dropLit] at h
      split at h
      · have := ih h; simp [List.length_cons]; omega
      · exact absurd h (by simp)

theorem dropSpaces_length_le (s : List Char) : (dropSpaces s).length ≤ s.length :=
  (List.dropWhile_sublist jsSpace).length_le

theorem takeWhile1_length_le {p : Char → Bool} {s t r : List Char}
    (h : takeWhile1 p s = some (t, r)) : r.length ≤ s.length := by
  simp only [takeWhile1] at h
  split at h
  · exact absurd h (by simp)
  · obtain ⟨h1, h2⟩ := Prod.mk.injEq .. ▸ Option.some.injEq .. ▸ h
    subst h2; simp

theorem matchToolPart_length_lt {s : List Char} {p : List Char × List Char}
    (h : matchToolPart s = some p) : p.2.length < s.length := by
  simp only [matchToolPart, bind, Option.bind_eq_some, pure, Option.some.injEq] at h
  obtain ⟨s1, h1, s2, h2, s3, h3, s4, h4, p5, h5, s6, h6, hfin⟩ := h
  have e1 := dropLit_length h1
  have e2 := dropLit_length h2
  have e3 := dropLit_length h3
  have e4 := dropLit_length h4
  have e5 := takeWhile1_length_le (t := p5.1) (r := p5.2) h5
  have e6 := dropLit_length h6
  have d1 := dropSpaces_length_le s1
  have d2 := dropSpaces_length_le s2
  have d3 := dropSpaces_length_le s3
  have hrest : s6 = p.2 := congrArg Prod.snd hfin
  subst hrest
  simp only [List.length_cons, String.toList] at *
  omega

theorem matchParamsPart_length_le {s : List Char} {p : List Char × List Char}
    (h : matchParamsPart s = some p) : p.2.length ≤ s.length := by
  simp only [matchParamsPart, bind, Option.bind_eq_some, pure, Option.some.injEq] at h
  obtain ⟨s1, h1, s2, h2, s3, h3, p4, h4, s5, h5, hfin⟩ := h
  have e1 := dropLit_length h1
  have e2 := dropLit_length h2
  have e3 := dropLit_length h3
  have e4 := takeWhile1_length_le (t := p4.1) (r := p4.2) h4
  have e5 := dropLit_length h5
  have d0 := dropSpaces_length_le s
  have d1 := dropSpaces_length_le s1
  have d2 := dropSpaces_length_le s2
  have hrest : s5 = p.2 := congrArg Prod.snd hfin
  subst hrest
  simp only [List.length_cons, String.toList] at *
  omega

theorem matchReasonPart_length_le {s : List Char} {p : List Char × List Char}
    (h : matchReasonPart s = some p) : p.2.length ≤ s.length := by
  simp only [matchReasonPart, bind, Option.bind_eq_some, pure, Option.some.injEq] at h
  obtain ⟨s1, h1, s2, h2, s3, h3, p4, h4, s5, h5, s6, h6, hfin⟩ := h
  have e1 := dropLit_length h1
  have e2 := dropLit_length h2
  have e3 := dropLit_length h3
  have e4 := takeWhile1_length_le (t := p4.1) (r := p4.2) h4
  have e5 := dropLit_length h5
  have e6 := dropLit_length h6
  have d0 := dropSpaces_length_le s
  have d1 := dropSpaces_length_le s1
  have d2 := dropSpaces_length_le s2
  have d5 := dropSpaces_length_le s5
  have hrest : s6 = p.2 := congrArg Prod.snd hfin
  subst hrest
  simp only [List.length_cons, String.toList] at *
  omega

theorem matchToolRequestAt_length_lt {s : List Char} {m : String × String × String}
    {rest : List Char} (h : matchToolRequestAt s = some (m, rest)) :
    rest.length < s.length := by
  simp only [matchToolRequestAt, bind, Option.bind_eq_some, pure, Option.some.injEq] at h
  obtain ⟨p1, h1, p2, h2, p3, h3, hfin⟩ := h
  have e1 := matchToolPart_length_lt h1
  have e2 := matchParamsPart_length_le h2
  have e3 := matchReasonPart_length_le h3
  have hrest : p3.2 = rest := congrArg Prod.snd hfin
  subst hrest
  omega

/-- Global scan with a structural fuel counter: at every position either the
anchored attempt succeeds, producing the match and resuming after its end,
or the scan advances one character.  Each step removes at least one input
character (`matchToolRequestAt_length_lt`), so the fuel passed by
`scanToolRequests` (the input length) is never exhausted. -/
def scanToolRequestsFuel : Nat → List Char → List (String × String × String)
  | 0, _ => []
  | _ + 1, [] => []
  | fuel + 1, c :: tl =>
    match matchToolRequestAt (c :: tl) with
    | some (m, rest) => m :: scanToolRequestsFuel fuel rest
    | none => scanToolRequestsFuel fuel tl

/-- Global scan: the leftmost-then-resume iteration of `exec` over the whole
response, collecting every match's captures in order. -/
def scanToolRequests (s : List Char) : List (String × String × String) :=
  scanToolRequestsFuel s.length s

/-- Source `parseToolRequests`: for every scanned occurrence, `JSON.parse`
the parameters capture; a successful parse is pushed as a `ToolRequest`, a
failed parse is caught, logged and skipped. -/
def parseToolRequests (response : String) : List ToolRequest :=
  (scanToolRequests response.toList).filterMap (fun m =>
    match jsonParse m.2.1 with
    | some params => some { tool := m.1, parameters := params, reason := m.2.2 }
    | none => none)

/-- The `console.warn` side channel of `parseToolRequests`: one entry (the
offending parameters capture) for every matched occurrence whose parameters
fail to parse. -/
def parseToolRequestsWarnings (response : String) : List String :=
  (scanToolRequests response.toList).filterMap (fun m =>
    match jsonParse m.2.1 with
    | some _ => none
    | none => some m.2.1)

/-! ### The agreement evaluator (`checkConsensus`) -/

/-- Advisor identity as configured in the roster (source
`interface AdvisorConfig`).  The instruction preamble and the model
identifier are carried but never inspected by the core logic. -/
structure AdvisorConfig where
  id : String
  name : String
  systemPrompt : String
  model : String

/-- One advisor's contribution to a round (source `interface
AdvisorResponse`); `toolRequests` is `none` when the source leaves the
optional field `undefined`. -/
structure AdvisorResponse where
  advisorId : String
  response : String
  toolRequests : Option (List ToolRequest)

/-- One completed round (source `interface DiscussionRound`). -/
structure DiscussionRound where
  round : Nat
  responses : List AdvisorResponse
  consensus : Option String

/-- Result of `checkConsensus`. -/
structure ConsensusResult where
  hasConsensus : Bool
  consensus : Option String

/-- Model of JavaScript `toLowerCase` (`String.toLower`): lower-case every
character. -/
def toLowerModel (s : String) : String := String.mk (s.toList.map Char.toLower)

/-- Model of JavaScript `trim` (`String.trim`): drop whitespace from both
ends. -/
def trimModel (s : String) : String :=
  String.mk (((s.toList.dropWhile Char.isWhitespace).reverse.dropWhile
    Char.isWhitespace).reverse)

/-- Normalization used for comparison: `r.response.toLowerCase().trim()`. -/
def normalizeResponse (s : String) : String := trimModel (toLowerModel s)

/-- First-occurrence-ordered deduplication: the iteration order of
`[...new Set(responseTexts)]` and the own-property creation order of the
tally object (JavaScript `Set` iteration and object property creation both
follow insertion order; *enumeration* of the object's keys additionally
moves array-index keys to the front, which `jsObjectKeys` models). -/
def keysInOrder : List String → List String
  | [] => []
  | t :: ts => t :: (keysInOrder ts).filter (fun k => k ≠ t)

/-- Numeric value of a digit string. -/
def strDigitsVal (cs : List Char) : Nat :=
  cs.foldl (fun acc c => acc * 10 + (c.toNat - '0'.toNat)) 0

/-- Canonical array-index strings of ECMA-262: the decimal form of an
integer below 2^32 - 1, with no leading zero.  Such own keys of a plain
object enumerate before all other string keys, in ascending numeric
order. -/
def isArrayIndexString (s : String) : Bool :=
  let cs := s.toList
  !cs.isEmpty && cs.all Char.isDigit &&
    (match cs with
     | '0' :: rest => rest.isEmpty
     | _ => true) &&
    strDigitsVal cs ≤ 4294967294

/-- Numeric value of an array-index key. -/
def arrayIndexVal (s : String) : Nat := strDigitsVal s.toList

/-- Ascending insertion of an array-index key (two distinct canonical
index strings always have distinct values, so ties cannot arise). -/
def insertIndexSorted (a : String) : List String → List String
  | [] => [a]
  | b :: bs => if arrayIndexVal a ≤ arrayIndexVal b then a :: b :: bs else b :: insertIndexSorted a bs

/-- Own-key enumeration order of a plain JavaScript object
(`Object.keys`): the array-index keys first, in ascending numeric order,
then the remaining string keys in creation order. -/
def jsObjectKeys (creation : List String) : List String :=
  (creation.filter (fun k => isArrayIndexString k)).foldr insertIndexSorted [] ++
    creation.filter (fun k => !isArrayIndexString k)

/-- Own property names of `Object.prototype` other than `__proto__`
(ECMA-262 core members plus the Annex B getter/setter-lookup functions,
which are ordinary data properties).  The tally update
`acc[k] = (acc[k] || 0) + 1` with such a key first reads the inherited
function - a truthy value - and therefore stores its string form
concatenated with `1`: a non-numeric string, which turns the later
`Math.max` over the tally values into NaN.  After the case-folding
normalization only `"constructor"` (and the separately handled
`"__proto__"`) can actually occur as a tally key; the full list keeps the
model faithful for arbitrary keys. -/
def objectPrototypeMemberNames : List String :=
  ["constructor", "hasOwnProperty", "isPrototypeOf", "propertyIsEnumerable",
   "toLocaleString", "toString", "valueOf",
   "__defineGetter__", "__defineSetter__", "__lookupGetter__", "__lookupSetter__"]

/-- Keys whose tally value is corrupted into a non-numeric string by an
inherited `Object.prototype` function property. -/
def jsCorruptedTallyKey (k : String) : Bool := objectPrototypeMemberNames.contains k

/-- Source `checkConsensus`: fewer than two responses never agree; if every
normalized text coincides (a `Set`-based check) consensus is immediate;
otherwise the `reduce` tallies the texts into a plain JavaScript object,
`Math.max` over the tally values is divided by the total response count and
compared with the threshold using `>=`, and on success the first response
whose normalized text is the first maximal key in the object's enumeration
order is returned verbatim.  The plain-object tally carries the host
semantics: a `"__proto__"` text never creates an own property (the
inherited accessor's setter drops the non-object value), and a text that
names another `Object.prototype` member stores a corrupted non-numeric
string, so `Math.max` yields NaN and the threshold comparison fails; an
empty spread would likewise yield -Infinity and fail. -/
def checkConsensus (responses : List AdvisorResponse) (threshold : ℚ) : ConsensusResult :=
  if responses.length < 2 then ⟨false, none⟩
  else
    let responseTexts := responses.map (fun r => normalizeResponse r.response)
    let uniqueResponses := keysInOrder responseTexts
    if uniqueResponses.length = 1 then
      ⟨true, responses.head?.map (fun r => r.response)⟩
    else
      let ownKeys := keysInOrder (responseTexts.filter (fun t => t ≠ "__proto__"))
      if ownKeys.isEmpty then ⟨false, none⟩
      else if ownKeys.any jsCorruptedTallyKey then ⟨false, none⟩
      else
        let maxAgreement := (ownKeys.map (fun k => responseTexts.count k)).foldl max 0
        let agreementRatio : ℚ := mkRat maxAgreement responses.length
        if threshold ≤ agreementRatio then
          let key := (jsObjectKeys ownKeys).find? (fun k =>
            decide (responseTexts.count k = maxAgreement))
          let consensusResponse := responses.find? (fun r =>
            decide (key = some (normalizeResponse r.response)))
          ⟨true, consensusResponse.map (fun r => r.response)⟩
        else ⟨false, none⟩

/-- Normalized texts of a round's responses. -/
def responseTextsOf (responses : List AdvisorResponse) : List String :=
  responses.map (fun r => normalizeResponse r.response)

/-- Specification-side maximal occurrence count among all normalized
response texts (the quantity the claims speak about; it ignores the
plain-object host behavior). -/
def maxAgreementCount (responses : List AdvisorResponse) : Nat :=
  ((keysInOrder (responseTextsOf responses)).map
    (fun k => (responseTextsOf responses).count k)).foldl max 0

/-- Own keys of the tally object, in creation order: the normalized texts
other than `"__proto__"`, deduplicated by first occurrence. -/
def ownTallyKeys (responses : List AdvisorResponse) : List String :=
  keysInOrder ((responseTextsOf responses).filter (fun t => t ≠ "__proto__"))

/-- The `maxAgreement` value of `checkConsensus` in the numeric case:
`Math.max` over the own tally values. -/
def maxOwnAgreementCount (responses : List AdvisorResponse) : Nat :=
  ((ownTallyKeys responses).map (fun k => (responseTextsOf responses).count k)).foldl max 0

/-- Specification-side selection: the first response, in the round's input
order, whose normalized text attains the maximal occurrence count. -/
def firstMaxResponse (responses : List AdvisorResponse) : Option AdvisorResponse :=
  responses.find? (fun r =>
    decide ((responseTextsOf responses).count (normalizeResponse r.response) = maxAgreementCount responses))

/-! ### The round orchestrator (`processConsensus`)

Effects are abstracted as follows.  One advisor query is a settled outcome
of type `AgentOutcome`: `.ok content` models a resolved chat completion
whose `choices[0]?.message?.content` is `content` (`none` for a missing
message, and the empty string is possible), `.error e` models a thrown
transport or provider error with message `e`.  A `RoundOracle` gives the
outcome of every advisor's call in every numbered round; a second oracle
gives the outcomes of the terminal summary queries.  Prompt texts influence
only what the remote models answer, which the oracles already determine, so
prompt construction carries no information in the model. -/

/-- Validated call input (source `interface ConsensusData`). -/
structure ConsensusData where
  problem : String
  availableTools : List String

/-- Source `validateConsensusData`: `!data.problem` rejects a missing value
and the empty string (falsy); `!data.availableTools || !Array.isArray(..)`
rejects only a missing value, because every array - including `[]` - is
truthy.  Inputs of the wrong runtime type are subsumed by `none`. -/
def validateConsensusData (problem : Option String) (availableTools : Option (List String)) :
    Except String ConsensusData :=
  match problem with
  | none => .error "Invalid problem: must be a string"
  | some p =>
    if p = "" then .error "Invalid problem: must be a string"
    else
      match availableTools with
      | none => .error "Invalid availableTools: must be an array"
      | some tools => .ok ⟨p, tools⟩

/-- Settled outcome of one remote advisor call. -/
def AgentOutcome : Type := Except String (Option String)

/-- JavaScript `a || b` on a string and a default. -/
def jsOrString (a b : String) : String := if a = "" then b else a

/-- Source `queryAdvisor`: passes the conversation to the provider and
returns `completion.choices[0]?.message?.content || 'No response received'`;
a thrown error propagates to the caller. -/
def queryAdvisor (outcome : AgentOutcome) : Except String String :=
  match outcome with
  | .error e => .error e
  | .ok content => .ok (jsOrString (content.getD "") "No response received")

/-- Fulfilled value of the per-advisor task inside the `Promise.allSettled`
fan-out: the task body queries the advisor and scans its directives; its
`catch` converts a thrown error into a synthetic failure-marker response
with an empty request list, so the task always fulfills. -/
structure AdvisorTaskResult where
  advisorId : String
  response : String
  toolRequests : List ToolRequest

/-- One advisor's task of a round. -/
def advisorTask (oracle : AdvisorConfig → AgentOutcome) (advisor : AdvisorConfig) :
    AdvisorTaskResult :=
  match queryAdvisor (oracle advisor) with
  | .ok response => ⟨advisor.id, response, parseToolRequests response⟩
  | .error e => ⟨advisor.id, "Error querying advisor: " ++ e, []⟩

/-- The `responses` array collected from the settled fan-out (every task
fulfills, so the `rejected` fallback branch of the source is dead code);
an empty request list is stored as the absent optional field. -/
def roundResponses (advisors : List AdvisorConfig) (oracle : AdvisorConfig → AgentOutcome) :
    List AdvisorResponse :=
  advisors.map (fun a =>
    let r := advisorTask oracle a
    { advisorId := r.advisorId, response := r.response,
      toolRequests := if r.toolRequests.length > 0 then some r.toolRequests else none })

/-- The `allToolRequests` aggregate of a round. -/
def roundToolRequests (advisors : List AdvisorConfig) (oracle : AdvisorConfig → AgentOutcome) :
    List ToolRequest :=
  (advisors.map (fun a => (advisorTask oracle a).toolRequests)).flatten

/-- Structured content of the JSON text built by source
`generateDiscussionSummary` (the serialization itself carries no further
semantics). -/
structure DiscussionSummary where
  totalRounds : Nat
  participants : List String
  keyPoints : List (String × String)

/-- Source `generateDiscussionSummary` over the current ledger:
participants come from the first recorded round, key points truncate every
response to its first 150 characters. -/
def generateDiscussionSummary (history : List DiscussionRound) : DiscussionSummary :=
  { totalRounds := history.length
  , participants := (history.head?.map (fun r => r.responses.map (fun resp => resp.advisorId))).getD []
  , keyPoints := (history.map (fun rd =>
      rd.responses.map (fun resp =>
        (resp.advisorId, String.mk (resp.response.toList.take 150))))).flatten }

/-- Instance configuration read once in the constructor: the fixed advisor
roster, `CONSENSUS_MAX_ROUNDS` and `CONSENSUS_THRESHOLD`. -/
structure ConsensusConfig where
  advisors : List AdvisorConfig
  maxRounds : Nat
  consensusThreshold : ℚ

/-- Outcomes of every advisor query, per round number. -/
def RoundOracle : Type := Nat → AdvisorConfig → AgentOutcome

/-- The `DiscussionRound` value a given numbered round pushes onto the
ledger. -/
def mkDiscussionRound (cfg : ConsensusConfig) (oracle : RoundOracle) (round : Nat) :
    DiscussionRound :=
  { round := round
  , responses := roundResponses cfg.advisors (oracle round)
  , consensus := (checkConsensus (roundResponses cfg.advisors (oracle round))
      cfg.consensusThreshold).consensus }

/-- How the `while` loop of `processConsensus` ends: by the early `return`
of the tool-request payload, or by falling through to the summary pass
(`finalConsensus` set on `break`, unset when the round limit is passed). -/
inductive LoopExit where
  | toolRequestsNeeded (round : Nat) (toolRequests : List ToolRequest)
      (history : List DiscussionRound)
  | finished (finalConsensus : Option String) (history : List DiscussionRound)

/-- The `while (round <= maxRounds && !finalConsensus)` loop, with
`fuel = maxRounds - round + 1` remaining iterations: query all advisors,
tally consensus, push the round, then exit on consensus, exit early on
aggregated requests, or continue into the next round. -/
def consensusLoop (cfg : ConsensusConfig) (oracle : RoundOracle) :
    Nat → Nat → List DiscussionRound → LoopExit
  | 0, _, history => .finished none history
  | fuel + 1, round, history =>
    let responses := roundResponses cfg.advisors (oracle round)
    let allToolRequests := roundToolRequests cfg.advisors (oracle round)
    let consensusResult := checkConsensus responses cfg.consensusThreshold
    let history2 := history ++
      [DiscussionRound.mk round responses consensusResult.consensus]
    if consensusResult.hasConsensus then .finished consensusResult.consensus history2
    else if allToolRequests.length > 0 then .toolRequestsNeeded round allToolRequests history2
    else consensusLoop cfg oracle fuel (round + 1) history2

/-- One entry of `finalSummaryVariations`. -/
structure SummaryVariation where
  advisorId : String
  summary : String

/-- One advisor's summary task: a thrown query error is caught and becomes
a marker summary, so the task always fulfills. -/
def summaryTask (summaryOracle : AdvisorConfig → AgentOutcome) (advisor : AdvisorConfig) :
    SummaryVariation :=
  match queryAdvisor (summaryOracle advisor) with
  | .ok summary => ⟨advisor.id, summary⟩
  | .error e => ⟨advisor.id, "Error generating summary: " ++ e⟩

/-- JavaScript truthiness of `finalConsensus : string | undefined`. -/
def jsTruthy (o : Option String) : Bool :=
  match o with
  | none => false
  | some s => s ≠ ""

/-- JavaScript `o || d` for an optional string and a default. -/
def jsOrOpt (o : Option String) (d : String) : String :=
  match o with
  | none => d
  | some s => if s = "" then d else s

/-- Fields of the JSON payload serialized into the returned tool result
text; absent fields are `none`.  `isError` mirrors the protocol-level error
flag of the failure payload. -/
structure RunOutcome where
  status : String
  isError : Bool := false
  error : Option String := none
  round : Option Nat := none
  toolRequests : Option (List ToolRequest) := none
  discussionSummary : Option DiscussionSummary := none
  nextAction : Option String := none
  finalConsensus : Option String := none
  totalRounds : Option Nat := none
  discussionHistory : Option (List DiscussionRound) := none
  finalSummaryVariations : Option (List SummaryVariation) := none
  requesterGuidance : Option String := none

/-- Returned payload together with the `this.discussionHistory` instance
state when the call returns. -/
structure ProcessResult where
  payload : RunOutcome
  ledger : List DiscussionRound

/-- Source `processConsensus` for one call, with `history0` the instance
ledger left over from before the call: validation failure is caught by the
surrounding `try`/`catch` and returned as the `failed` payload (the ledger
reset happens after validation, so it is skipped); otherwise the round loop
runs from round 1 on a reset ledger and either returns the
`tool_requests_needed` payload early - before any summary work - or falls
through to the summary pass, records the summary round, and returns the
terminal payload. -/
def processConsensus (cfg : ConsensusConfig) (oracle : RoundOracle)
    (summaryOracle : AdvisorConfig → AgentOutcome)
    (problem : Option String) (availableTools : Option (List String))
    (history0 : List DiscussionRound) : ProcessResult :=
  match validateConsensusData problem availableTools with
  | .error e => ⟨{ status := "failed", isError := true, error := some e }, history0⟩
  | .ok _ =>
    match consensusLoop cfg oracle cfg.maxRounds 1 [] with
    | .toolRequestsNeeded round allToolRequests history =>
        ⟨{ status := "tool_requests_needed"
         , round := some round
         , toolRequests := some allToolRequests
         , discussionSummary := some (generateDiscussionSummary history)
         , nextAction := some "Please execute the requested tools and continue the consensus process" }
        , history⟩
    | .finished finalConsensus history =>
        let variations := cfg.advisors.map (summaryTask summaryOracle)
        let summaryResponses : List AdvisorResponse := variations.map (fun v =>
          { advisorId := v.advisorId, response := v.summary, toolRequests := none })
        let history2 := history ++
          [DiscussionRound.mk (history.length + 1) summaryResponses finalConsensus]
        ⟨{ status := if jsTruthy finalConsensus then "consensus_reached" else "max_rounds_reached"
         , finalConsensus := some (jsOrOpt finalConsensus
             "No consensus reached within the maximum number of rounds")
         , totalRounds := some history2.length
         , discussionHistory := some history2
         , finalSummaryVariations := some variations
         , requesterGuidance := some "If the consensus includes source code or requests a code artifact, please provide the full source code in your final answer (do not truncate)." }
        , history2⟩

/-! ### Lemmas about the evaluator -/

theorem mem_keysInOrder {a : String} : ∀ {l : List String}, a ∈ keysInOrder l ↔ a ∈ l := by
  intro l
  induction l with
  | nil => simp [keysInOrder]
  | cons t ts ih =>
    by_cases hat : a = t
    · subst hat; simp [keysInOrder]
    · simp [keysInOrder, List.mem_filter, hat, ih]

theorem keysInOrder_eq_nil {l : List String} : keysInOrder l = [] ↔ l = [] := by
  cases l with
  | nil => simp [keysInOrder]
  | cons t ts => simp [keysInOrder]

theorem mem_insertIndexSorted {a b : String} :
    ∀ {l : List String}, a ∈ insertIndexSorted b l ↔ a = b ∨ a ∈ l := by
  intro l
  induction l with
  | nil => simp [insertIndexSorted]
  | cons c cs ih =>
    by_cases h : arrayIndexVal b ≤ arrayIndexVal c
    · simp [insertIndexSorted, h]
    · simp only [insertIndexSorted, if_neg h, List.mem_cons, ih]
      tauto

theorem mem_foldr_insertIndexSorted {a : String} :
    ∀ (l : List String), a ∈ l.foldr insertIndexSorted [] ↔ a ∈ l := by
  intro l
  induction l with
  | nil => simp
  | cons b bs ih => simp only [List.foldr_cons, mem_insertIndexSorted, ih, List.mem_cons]

theorem mem_jsObjectKeys {a : String} {l : List String} : a ∈ jsObjectKeys l ↔ a ∈ l := by
  unfold jsObjectKeys
  simp only [List.mem_append, mem_foldr_insertIndexSorted, List.mem_filter]
  constructor
  · rintro (⟨h, _⟩ | ⟨h, _⟩) <;> exact h
  · intro h
    by_cases hi : isArrayIndexString a = true
    · left; exact ⟨h, hi⟩
    · right; exact ⟨h, by simpa using hi⟩

theorem jsObjectKeys_of_no_index {l : List String}
    (h : ∀ k ∈ l, isArrayIndexString k = false) : jsObjectKeys l = l := by
  unfold jsObjectKeys
  have h1 : l.filter (fun k => isArrayIndexString k) = [] :=
    List.filter_eq_nil_iff.mpr (fun k hk => by simp [h k hk])
  have h2 : l.filter (fun k => !isArrayIndexString k) = l :=
    List.filter_eq_self.mpr (fun k hk => by simp [h k hk])
  rw [h1, h2]
  rfl

theorem find?_filter_of_imp {α : Type} {p q : α → Bool}
    (himp : ∀ x, p x = true → q x = true) :
    ∀ (l : List α), (l.filter q).find? p = l.find? p := by
  intro l
  induction l with
  | nil => simp
  | cons a l ih =>
    by_cases hq : q a = true
    · simp only [List.filter_cons, hq, if_pos rfl]
      by_cases hp : p a = true
      · simp [List.find?_cons, hp]
      · simp only [List.find?_cons, Bool.not_eq_true] at *
        simp [hp, ih]
    · have hp : p a = false := by
        cases hpa : p a with
        | false => rfl
        | true => exact absurd (himp a hpa) hq
      simp [List.filter_cons, hq, List.find?_cons, hp, ih]

theorem keysInOrder_find? {p : String → Bool} :
    ∀ (l : List String), (keysInOrder l).find? p = l.find? p := by
  intro l
  induction l with
  | nil => simp [keysInOrder]
  | cons t ts ih =>
    by_cases hp : p t = true
    · simp [keysInOrder, List.find?_cons, hp]
    · have hp' : p t = false := by simpa using hp
      simp only [keysInOrder, List.find?_cons, hp']
      rw [find?_filter_of_imp (q := fun k => k ≠ t) ?himp (keysInOrder ts), ih]
      intro x hx
      by_cases hxt : x = t
      · subst hxt; exact absurd hx (by simp [hp'])
      · simpa using hxt

theorem find?_first_strengthen {α : Type} {p q : α → Bool} {a : α} :
    ∀ {l : List α}, l.find? p = some a → (∀ x, q x = true → p x = true) →
      q a = true → l.find? q = some a := by
  intro l
  induction l with
  | nil => intro h; simp at h
  | cons x l ih =>
    intro h himp hqa
    by_cases hp : p x = true
    · simp only [List.find?_cons, hp] at h
      have hax : x = a := by simpa using h
      subst hax
      simp [List.find?_cons, hqa]
    · have hp' : p x = false := by simpa using hp
      have hq' : q x = false := by
        cases hqx : q x with
        | false => rfl
        | true => exact absurd (himp x hqx) (by simp [hp'])
      simp only [List.find?_cons, hp'] at h
      simp [List.find?_cons, hq', ih h himp hqa]

theorem init_le_foldl_max : ∀ (l : List Nat) (a : Nat), a ≤ l.foldl max a := by
  intro l
  induction l with
  | nil => intro a; exact le_refl a
  | cons y l ih => intro a; exact le_trans (le_max_left a y) (ih (max a y))

theorem le_foldl_max {x : Nat} : ∀ (l : List Nat) (a : Nat), x ∈ l → x ≤ l.foldl max a := by
  intro l
  induction l with
  | nil => intro a h; simp at h
  | cons y l ih =>
    intro a h
    rcases List.mem_cons.mp h with hx | hx
    · subst hx
      exact le_trans (le_max_right a x) (init_le_foldl_max l (max a x))
    · exact ih (max a y) hx

theorem foldl_max_mem : ∀ (l : List Nat) (a : Nat), l.foldl max a = a ∨ l.foldl max a ∈ l := by
  intro l
  induction l with
  | nil => intro a; left; rfl
  | cons y l ih =>
    intro a
    have hfold : (y :: l).foldl max a = l.foldl max (max a y) := rfl
    rcases ih (max a y) with h | h
    · rcases max_choice a y with he | he
      · left; rw [hfold, h, he]
      · right; rw [hfold, h, he]; exact List.mem_cons_self y l
    · right; rw [hfold]; exact List.mem_cons_of_mem y h

theorem keysInOrder_all_eq {l : List String} {t : String} (h : keysInOrder l = [t]) :
    ∀ x ∈ l, x = t := by
  intro x hx
  have := mem_keysInOrder.mpr hx
  rw [h] at this
  simpa using this

/-- Restatement of `checkConsensus` with its let-bindings inlined through
the named helper definitions and the agreement ratio written as the
division it denotes (`mkRat` is the exact rational value of the source's
`maxAgreement / responses.length`). -/
theorem checkConsensus_def2 (rs : List AdvisorResponse) (τ : ℚ) :
    checkConsensus rs τ =
      if rs.length < 2 then ⟨false, none⟩
      else if (keysInOrder (responseTextsOf rs)).length = 1 then
        ⟨true, rs.head?.map (fun r => r.response)⟩
      else if (ownTallyKeys rs).isEmpty then ⟨false, none⟩
      else if (ownTallyKeys rs).any jsCorruptedTallyKey then ⟨false, none⟩
      else if τ ≤ (maxOwnAgreementCount rs : ℚ) / (rs.length : ℚ) then
        ⟨true, (rs.find? (fun r =>
          decide ((jsObjectKeys (ownTallyKeys rs)).find?
              (fun k => decide ((responseTextsOf rs).count k = maxOwnAgreementCount rs)) =
            some (normalizeResponse r.response)))).map (fun r => r.response)⟩
      else ⟨false, none⟩ := by
  unfold checkConsensus
  simp only [Rat.mkRat_eq_div, Int.cast_natCast, responseTextsOf, ownTallyKeys,
    maxOwnAgreementCount]

theorem ownTallyKeys_of_clean {rs : List AdvisorResponse}
    (hp : ∀ t ∈ responseTextsOf rs, t ≠ "__proto__") :
    ownTallyKeys rs = keysInOrder (responseTextsOf rs) := by
  unfold ownTallyKeys
  congr 1
  exact List.filter_eq_self.mpr (fun t ht => by simpa using hp t ht)

theorem maxOwnAgreementCount_of_clean {rs : List AdvisorResponse}
    (hp : ∀ t ∈ responseTextsOf rs, t ≠ "__proto__") :
    maxOwnAgreementCount rs = maxAgreementCount rs := by
  unfold maxOwnAgreementCount maxAgreementCount
  rw [ownTallyKeys_of_clean hp]

theorem ownTallyKeys_isEmpty_of_clean {rs : List AdvisorResponse} (hne : rs ≠ [])
    (hp : ∀ t ∈ responseTextsOf rs, t ≠ "__proto__") :
    (ownTallyKeys rs).isEmpty = false := by
  rw [ownTallyKeys_of_clean hp, List.isEmpty_eq_false]
  intro h
  exact hne (by simpa [responseTextsOf] using keysInOrder_eq_nil.mp h)

theorem ownTallyKeys_no_corrupt_of_clean {rs : List AdvisorResponse}
    (hc : ∀ t ∈ responseTextsOf rs, jsCorruptedTallyKey t = false) :
    (ownTallyKeys rs).any jsCorruptedTallyKey = false := by
  rw [List.any_eq_false]
  intro k hk
  unfold ownTallyKeys at hk
  have hkt : k ∈ responseTextsOf rs := List.mem_of_mem_filter (mem_keysInOrder.mp hk)
  simp [hc k hkt]

theorem maxAgreementCount_of_unique {rs : List AdvisorResponse}
    (hu : (keysInOrder (responseTextsOf rs)).length = 1) :
    maxAgreementCount rs = rs.length := by
  obtain ⟨t, ht⟩ := List.length_eq_one.mp hu
  have hall : ∀ x ∈ responseTextsOf rs, x = t := keysInOrder_all_eq ht
  have hcount : (responseTextsOf rs).count t = (responseTextsOf rs).length :=
    List.count_eq_length.mpr (fun b hb => (hall b hb).symm)
  unfold maxAgreementCount
  rw [ht]
  have hsingle : (List.map (fun k => (responseTextsOf rs).count k) [t]).foldl max 0 =
      (responseTextsOf rs).count t := by simp
  rw [hsingle, hcount]
  simp [responseTextsOf]

theorem maxAgreementCount_attained {rs : List AdvisorResponse} (hne : rs ≠ []) :
    ∃ r ∈ rs, (responseTextsOf rs).count (normalizeResponse r.response) = maxAgreementCount rs := by
  have htne : responseTextsOf rs ≠ [] := by
    simpa [responseTextsOf] using hne
  have hkne : keysInOrder (responseTextsOf rs) ≠ [] := fun h => htne (keysInOrder_eq_nil.mp h)
  rcases foldl_max_mem ((keysInOrder (responseTextsOf rs)).map
      (fun k => (responseTextsOf rs).count k)) 0 with hz | hmem
  · exfalso
    obtain ⟨k, hk⟩ := List.exists_mem_of_ne_nil _ hkne
    have hkt : k ∈ responseTextsOf rs := mem_keysInOrder.mp hk
    have h1 : 0 < (responseTextsOf rs).count k := List.count_pos_iff.mpr hkt
    have h2 : (responseTextsOf rs).count k ≤
        (List.map (fun k => (responseTextsOf rs).count k) (keysInOrder (responseTextsOf rs))).foldl max 0 :=
      le_foldl_max _ 0 (List.mem_map_of_mem _ hk)
    rw [hz] at h2
    omega
  · obtain ⟨k, hk, hck⟩ := List.mem_map.mp hmem
    have hkt : k ∈ responseTextsOf rs := mem_keysInOrder.mp hk
    obtain ⟨r, hr, hrk⟩ := List.mem_map.mp hkt
    refine ⟨r, hr, ?_⟩
    unfold maxAgreementCount
    have hrk2 : normalizeResponse r.response = k := hrk
    rw [hrk2]
    exact hck

theorem checkConsensus_lt_two {rs : List AdvisorResponse} {τ : ℚ} (h : rs.length < 2) :
    checkConsensus rs τ = ⟨false, none⟩ := by
  rw [checkConsensus_def2, if_pos h]

theorem checkConsensus_hasConsensus_iff {rs : List AdvisorResponse} {τ : ℚ}
    (h1 : τ ≤ 1) (h2 : 2 ≤ rs.length)
    (hclean : ∀ t ∈ responseTextsOf rs, t ≠ "__proto__" ∧ jsCorruptedTallyKey t = false) :
    (checkConsensus rs τ).hasConsensus = true ↔
      τ ≤ (maxAgreementCount rs : ℚ) / (rs.length : ℚ) := by
  have hp : ∀ t ∈ responseTextsOf rs, t ≠ "__proto__" := fun t ht => (hclean t ht).1
  have hcor : ∀ t ∈ responseTextsOf rs, jsCorruptedTallyKey t = false :=
    fun t ht => (hclean t ht).2
  have hne : rs ≠ [] := by intro hnil; subst hnil; simp at h2
  rw [checkConsensus_def2, if_neg (by omega)]
  by_cases hu : (keysInOrder (responseTextsOf rs)).length = 1
  · rw [if_pos hu]
    constructor
    · intro _
      rw [maxAgreementCount_of_unique hu]
      have hn : ((rs.length : ℚ)) ≠ 0 := by
        exact_mod_cast (show rs.length ≠ 0 by omega)
      rw [div_self hn]
      exact h1
    · intro _; rfl
  · rw [if_neg hu, if_neg (by simp [ownTallyKeys_isEmpty_of_clean hne hp]),
      if_neg (by simp [ownTallyKeys_no_corrupt_of_clean hcor]),
      maxOwnAgreementCount_of_clean hp]
    by_cases hτ : τ ≤ (maxAgreementCount rs : ℚ) / (rs.length : ℚ)
    · rw [if_pos hτ]
      simpa using hτ
    · rw [if_neg hτ]
      constructor
      · intro hfalse; exact absurd hfalse (by simp)
      · intro hc; exact absurd hc hτ

theorem checkConsensus_consensus_spec {rs : List AdvisorResponse} {τ : ℚ}
    (hclean : ∀ t ∈ responseTextsOf rs, t ≠ "__proto__" ∧ jsCorruptedTallyKey t = false)
    (hidx : ∀ t ∈ responseTextsOf rs, isArrayIndexString t = false)
    (h : (checkConsensus rs τ).hasConsensus = true) :
    (checkConsensus rs τ).consensus = (firstMaxResponse rs).map (fun r => r.response) := by
  have hp : ∀ t ∈ responseTextsOf rs, t ≠ "__proto__" := fun t ht => (hclean t ht).1
  have hcor : ∀ t ∈ responseTextsOf rs, jsCorruptedTallyKey t = false :=
    fun t ht => (hclean t ht).2
  rw [checkConsensus_def2] at h ⊢
  by_cases hlt : rs.length < 2
  · rw [if_pos hlt] at h; exact absurd h (by simp)
  · have hne : rs ≠ [] := by intro hnil; subst hnil; simp at hlt
    rw [if_neg hlt] at h ⊢
    by_cases hu : (keysInOrder (responseTextsOf rs)).length = 1
    · rw [if_pos hu] at h ⊢
      obtain ⟨t, ht⟩ := List.length_eq_one.mp hu
      cases rs with
      | nil => simp at hlt
      | cons r0 rest =>
        have hmax : maxAgreementCount (r0 :: rest) = (r0 :: rest).length :=
          maxAgreementCount_of_unique hu
        have hr0t : normalizeResponse r0.response = t := by
          refine keysInOrder_all_eq ht _ ?_
          simp [responseTextsOf]
        have hcnt : (responseTextsOf (r0 :: rest)).count (normalizeResponse r0.response) =
            maxAgreementCount (r0 :: rest) := by
          rw [hmax]
          have hall : ∀ x ∈ responseTextsOf (r0 :: rest), x = t := keysInOrder_all_eq ht
          have hclen : (responseTextsOf (r0 :: rest)).count t =
              (responseTextsOf (r0 :: rest)).length :=
            List.count_eq_length.mpr (fun b hb => (hall b hb).symm)
          rw [hr0t, hclen]
          simp [responseTextsOf]
        unfold firstMaxResponse
        rw [List.find?_cons, decide_eq_true hcnt]
        rfl
    · have hnoidx : ∀ k ∈ keysInOrder (responseTextsOf rs), isArrayIndexString k = false :=
        fun k hk => hidx k (mem_keysInOrder.mp hk)
      rw [if_neg hu, if_neg (by simp [ownTallyKeys_isEmpty_of_clean hne hp]),
        if_neg (by simp [ownTallyKeys_no_corrupt_of_clean hcor]),
        maxOwnAgreementCount_of_clean hp, ownTallyKeys_of_clean hp,
        jsObjectKeys_of_no_index hnoidx] at h ⊢
      by_cases hτ : τ ≤ (maxAgreementCount rs : ℚ) / (rs.length : ℚ)
      · rw [if_pos hτ]
        have hkey : (keysInOrder (responseTextsOf rs)).find?
            (fun k => decide ((responseTextsOf rs).count k = maxAgreementCount rs)) =
            Option.map (fun r => normalizeResponse r.response) (firstMaxResponse rs) := by
          rw [keysInOrder_find?]
          unfold firstMaxResponse
          have hm := List.find?_map (p := fun k =>
              decide ((responseTextsOf rs).count k = maxAgreementCount rs))
            (fun r => normalizeResponse r.response) rs
          calc List.find? (fun k => decide ((responseTextsOf rs).count k = maxAgreementCount rs))
                (responseTextsOf rs)
              = List.find? (fun k => decide ((responseTextsOf rs).count k = maxAgreementCount rs))
                (rs.map (fun r => normalizeResponse r.response)) := rfl
            _ = Option.map (fun r => normalizeResponse r.response)
                (rs.find? ((fun k => decide ((responseTextsOf rs).count k = maxAgreementCount rs))
                  ∘ (fun r => normalizeResponse r.response))) := hm
            _ = Option.map (fun r => normalizeResponse r.response)
                (rs.find? (fun r =>
                  decide ((responseTextsOf rs).count (normalizeResponse r.response) =
                    maxAgreementCount rs))) := rfl
        rw [hkey]
        cases hfm : firstMaxResponse rs with
        | none =>
          have hnone : rs.find? (fun r =>
              decide ((Option.map (fun r => normalizeResponse r.response)
                  (none : Option AdvisorResponse)) =
                some (normalizeResponse r.response))) = none := by
            rw [List.find?_eq_none]
            intro x _
            simp
          rw [hnone]
        | some r0 =>
          have hfm2 : rs.find? (fun r =>
              decide ((responseTextsOf rs).count (normalizeResponse r.response) =
                maxAgreementCount rs)) = some r0 := hfm
          have hp0 : ((responseTextsOf rs).count (normalizeResponse r0.response) =
              maxAgreementCount rs) := by
            have := List.find?_some hfm2
            simpa using this
          have hfind : rs.find? (fun r =>
              decide ((Option.map (fun r => normalizeResponse r.response) (some r0)) =
                some (normalizeResponse r.response))) = some r0 := by
            refine find?_first_strengthen hfm2 ?_ ?_
            · intro x hx
              have hxx : normalizeResponse r0.response = normalizeResponse x.response := by
                simpa using hx
              rw [decide_eq_true_eq, ← hxx]
              exact hp0
            · simp
          rw [hfind]
      · rw [if_neg hτ] at h
        exact absurd h (by simp)

/-! ### Lemmas about the orchestrator -/

theorem string_eq_empty_of_length {s : String} (h : s.length = 0) : s = "" := by
  cases s with
  | mk data =>
    cases data with
    | nil => rfl
    | cons c cs => simp [String.length] at h

theorem append_ne_empty_left {a b : String} (ha : a ≠ "") : a ++ b ≠ "" := by
  intro hab
  have hlen : (a ++ b).length = 0 := by rw [hab]; rfl
  rw [String.length_append] at hlen
  exact ha (string_eq_empty_of_length (by omega))

theorem jsOrString_ne_empty {a b : String} (hb : b ≠ "") : jsOrString a b ≠ "" := by
  unfold jsOrString
  split
  · exact hb
  · assumption

theorem advisorTask_response_ne_empty (oracle : AdvisorConfig → AgentOutcome)
    (a : AdvisorConfig) : (advisorTask oracle a).response ≠ "" := by
  unfold advisorTask
  cases h : queryAdvisor (oracle a) with
  | ok response =>
    cases ho : oracle a with
    | ok content =>
      simp only [queryAdvisor, ho] at h
      have : response = jsOrString (content.getD "") "No response received" := by
        simpa using h.symm
      rw [this]
      exact jsOrString_ne_empty (by intro hcon; simp at hcon)
    | error e => simp [queryAdvisor, ho] at h
  | error e =>
    exact append_ne_empty_left (by intro hcon; simp at hcon)

theorem roundResponses_response_ne_empty {advisors : List AdvisorConfig}
    {oracle : AdvisorConfig → AgentOutcome} {r : AdvisorResponse}
    (hr : r ∈ roundResponses advisors oracle) : r.response ≠ "" := by
  unfold roundResponses at hr
  obtain ⟨a, _, hra⟩ := List.mem_map.mp hr
  have : r.response = (advisorTask oracle a).response := by
    rw [← hra]
  rw [this]
  exact advisorTask_response_ne_empty oracle a

theorem checkConsensus_consensus_of_has {rs : List AdvisorResponse} {τ : ℚ}
    (h : (checkConsensus rs τ).hasConsensus = true) :
    ∃ r ∈ rs, (checkConsensus rs τ).consensus = some r.response := by
  rw [checkConsensus_def2] at h ⊢
  by_cases hlt : rs.length < 2
  · rw [if_pos hlt] at h; exact absurd h (by simp)
  · rw [if_neg hlt] at h ⊢
    by_cases hu : (keysInOrder (responseTextsOf rs)).length = 1
    · rw [if_pos hu] at h ⊢
      cases rs with
      | nil => simp at hlt
      | cons r0 rest => exact ⟨r0, List.mem_cons_self r0 rest, rfl⟩
    · rw [if_neg hu] at h ⊢
      by_cases hE : (ownTallyKeys rs).isEmpty
      · rw [if_pos hE] at h; exact absurd h (by simp)
      · rw [if_neg hE] at h ⊢
        by_cases hA : (ownTallyKeys rs).any jsCorruptedTallyKey
        · rw [if_pos hA] at h; exact absurd h (by simp)
        · rw [if_neg hA] at h ⊢
          by_cases hτ : τ ≤ (maxOwnAgreementCount rs : ℚ) / (rs.length : ℚ)
          · rw [if_pos hτ]
            have hkne : ownTallyKeys rs ≠ [] := by
              intro hnil
              exact hE (by rw [hnil]; rfl)
            obtain ⟨k1, hk1⟩ := List.exists_mem_of_ne_nil _ hkne
            have hk1t : k1 ∈ responseTextsOf rs := by
              unfold ownTallyKeys at hk1
              exact List.mem_of_mem_filter (mem_keysInOrder.mp hk1)
            have hpos : 0 < (responseTextsOf rs).count k1 := List.count_pos_iff.mpr hk1t
            have hle : (responseTextsOf rs).count k1 ≤ maxOwnAgreementCount rs := by
              unfold maxOwnAgreementCount
              exact le_foldl_max _ 0 (List.mem_map_of_mem _ hk1)
            have hmem : maxOwnAgreementCount rs ∈
                (ownTallyKeys rs).map (fun k => (responseTextsOf rs).count k) := by
              rcases foldl_max_mem ((ownTallyKeys rs).map
                  (fun k => (responseTextsOf rs).count k)) 0 with hz | hm
              · exfalso
                have hz2 : maxOwnAgreementCount rs = 0 := hz
                omega
              · exact hm
            obtain ⟨k0, hk0mem, hk0cnt⟩ := List.mem_map.mp hmem
            have hksome : ∃ k, (jsObjectKeys (ownTallyKeys rs)).find?
                (fun k => decide ((responseTextsOf rs).count k = maxOwnAgreementCount rs)) =
                  some k := by
              cases hfind : (jsObjectKeys (ownTallyKeys rs)).find?
                  (fun k => decide ((responseTextsOf rs).count k = maxOwnAgreementCount rs)) with
              | none =>
                rw [List.find?_eq_none] at hfind
                exact absurd (decide_eq_true hk0cnt)
                  (by simpa using hfind k0 (mem_jsObjectKeys.mpr hk0mem))
              | some k => exact ⟨k, rfl⟩
            obtain ⟨k2, hk2⟩ := hksome
            have hk2mem : k2 ∈ ownTallyKeys rs :=
              mem_jsObjectKeys.mp (List.mem_of_find?_eq_some hk2)
            have hk2t : k2 ∈ responseTextsOf rs := by
              unfold ownTallyKeys at hk2mem
              exact List.mem_of_mem_filter (mem_keysInOrder.mp hk2mem)
            have hk2t2 : k2 ∈ rs.map (fun r => normalizeResponse r.response) := hk2t
            obtain ⟨r1, hr1, hr1k⟩ := List.mem_map.mp hk2t2
            rw [hk2]
            have hfm : ∃ r0, rs.find? (fun r =>
                decide (some k2 = some (normalizeResponse r.response))) = some r0 := by
              cases hfind : rs.find? (fun r =>
                  decide (some k2 = some (normalizeResponse r.response))) with
              | none =>
                rw [List.find?_eq_none] at hfind
                have hcon := hfind r1 hr1
                rw [hr1k] at hcon
                simp at hcon
              | some r0 => exact ⟨r0, rfl⟩
            obtain ⟨r0, hr0⟩ := hfm
            refine ⟨r0, List.mem_of_find?_eq_some hr0, ?_⟩
            rw [hr0]
            rfl
          · rw [if_neg hτ] at h
            exact absurd h (by simp)

/-- History carried by a loop exit. -/
def loopHistory : LoopExit → List DiscussionRound
  | .toolRequestsNeeded _ _ h => h
  | .finished _ h => h

theorem consensusLoop_early (cfg : ConsensusConfig) (oracle : RoundOracle) (k : Nat)
    (hkc : (checkConsensus (roundResponses cfg.advisors (oracle k))
      cfg.consensusThreshold).hasConsensus = false)
    (hkt : roundToolRequests cfg.advisors (oracle k) ≠ []) :
    ∀ fuel r h, r ≤ k → k < r + fuel →
      (∀ j, r ≤ j → j < k →
        (checkConsensus (roundResponses cfg.advisors (oracle j))
          cfg.consensusThreshold).hasConsensus = false ∧
        roundToolRequests cfg.advisors (oracle j) = []) →
      consensusLoop cfg oracle fuel r h =
        .toolRequestsNeeded k (roundToolRequests cfg.advisors (oracle k))
          (h ++ (List.range' r (k + 1 - r)).map (mkDiscussionRound cfg oracle)) := by
  intro fuel
  induction fuel with
  | zero => intro r h hrk hkf _; omega
  | succ fuel ih =>
    intro r h hrk hkf hprev
    by_cases hreq : r = k
    · subst hreq
      simp only [consensusLoop, hkc, Bool.false_eq_true, if_false]
      rw [if_pos (by simpa [List.length_pos] using hkt)]
      have hone : r + 1 - r = 1 := by omega
      rw [hone]
      simp [mkDiscussionRound, List.range']
    · have hrk' : r < k := by omega
      obtain ⟨hc, ht⟩ := hprev r (le_refl r) hrk'
      simp only [consensusLoop, hc, Bool.false_eq_true, if_false]
      rw [if_neg (by simp [ht])]
      rw [ih (r + 1) _ (by omega) (by omega) (fun j hj1 hj2 => hprev j (by omega) hj2)]
      have hsucc : k + 1 - r = (k - r) + 1 := by omega
      have hsucc2 : k + 1 - (r + 1) = k - r := by omega
      rw [hsucc, hsucc2, List.range'_succ]
      simp [mkDiscussionRound, List.append_assoc]

theorem consensusLoop_consensus (cfg : ConsensusConfig) (oracle : RoundOracle) (k : Nat)
    (hkc : (checkConsensus (roundResponses cfg.advisors (oracle k))
      cfg.consensusThreshold).hasConsensus = true) :
    ∀ fuel r h, r ≤ k → k < r + fuel →
      (∀ j, r ≤ j → j < k →
        (checkConsensus (roundResponses cfg.advisors (oracle j))
          cfg.consensusThreshold).hasConsensus = false ∧
        roundToolRequests cfg.advisors (oracle j) = []) →
      consensusLoop cfg oracle fuel r h =
        .finished (checkConsensus (roundResponses cfg.advisors (oracle k))
            cfg.consensusThreshold).consensus
          (h ++ (List.range' r (k + 1 - r)).map (mkDiscussionRound cfg oracle)) := by
  intro fuel
  induction fuel with
  | zero => intro r h hrk hkf _; omega
  | succ fuel ih =>
    intro r h hrk hkf hprev
    by_cases hreq : r = k
    · subst hreq
      simp only [consensusLoop, hkc, if_true]
      have hone : r + 1 - r = 1 := by omega
      rw [hone]
      simp [mkDiscussionRound, List.range']
    · have hrk' : r < k := by omega
      obtain ⟨hc, ht⟩ := hprev r (le_refl r) hrk'
      simp only [consensusLoop, hc, Bool.false_eq_true, if_false]
      rw [if_neg (by simp [ht])]
      rw [ih (r + 1) _ (by omega) (by omega) (fun j hj1 hj2 => hprev j (by omega) hj2)]
      have hsucc : k + 1 - r = (k - r) + 1 := by omega
      have hsucc2 : k + 1 - (r + 1) = k - r := by omega
      rw [hsucc, hsucc2, List.range'_succ]
      simp [mkDiscussionRound, List.append_assoc]

theorem consensusLoop_history_mem (cfg : ConsensusConfig) (oracle : RoundOracle) :
    ∀ fuel r h rd, rd ∈ loopHistory (consensusLoop cfg oracle fuel r h) →
      rd ∈ h ∨ ∃ j, rd = mkDiscussionRound cfg oracle j := by
  intro fuel
  induction fuel with
  | zero =>
    intro r h rd hrd
    simp only [consensusLoop, loopHistory] at hrd
    exact Or.inl hrd
  | succ fuel ih =>
    intro r h rd hrd
    simp only [consensusLoop] at hrd
    split at hrd
    · simp only [loopHistory] at hrd
      rcases List.mem_append.mp hrd with hin | hin
      · exact Or.inl hin
      · exact Or.inr ⟨r, by simpa [mkDiscussionRound] using hin⟩
    · split at hrd
      · simp only [loopHistory] at hrd
        rcases List.mem_append.mp hrd with hin | hin
        · exact Or.inl hin
        · exact Or.inr ⟨r, by simpa [mkDiscussionRound] using hin⟩
      · rcases ih (r + 1) _ rd hrd with hin | hex
        · rcases List.mem_append.mp hin with hin2 | hin2
          · exact Or.inl hin2
          · exact Or.inr ⟨r, by simpa [mkDiscussionRound] using hin2⟩
        · exact Or.inr hex

theorem consensusLoop_history_length (cfg : ConsensusConfig) (oracle : RoundOracle) :
    ∀ fuel r h, (loopHistory (consensusLoop cfg oracle fuel r h)).length ≤ h.length + fuel := by
  intro fuel
  induction fuel with
  | zero => intro r h; simp [consensusLoop, loopHistory]
  | succ fuel ih =>
    intro r h
    simp only [consensusLoop]
    split
    · simp [loopHistory]
    · split
      · simp [loopHistory]
      · calc (loopHistory (consensusLoop cfg oracle fuel (r + 1) _)).length
            ≤ (h ++ [DiscussionRound.mk r (roundResponses cfg.advisors (oracle r))
                (checkConsensus (roundResponses cfg.advisors (oracle r))
                  cfg.consensusThreshold).consensus]).length + fuel := ih (r + 1) _
          _ ≤ h.length + (fuel + 1) := by simp; omega

theorem validateConsensusData_ok {p : String} (hp : p ≠ "") (ts : List String) :
    validateConsensusData (some p) (some ts) = .ok ⟨p, ts⟩ := by
  simp [validateConsensusData, hp]

theorem advisorTask_advisorId (oracle : AdvisorConfig → AgentOutcome) (a : AdvisorConfig) :
    (advisorTask oracle a).advisorId = a.id := by
  unfold advisorTask
  cases queryAdvisor (oracle a) with
  | ok response => rfl
  | error e => rfl

theorem summaryTask_advisorId (summaryOracle : AdvisorConfig → AgentOutcome)
    (a : AdvisorConfig) : (summaryTask summaryOracle a).advisorId = a.id := by
  unfold summaryTask
  cases queryAdvisor (summaryOracle a) with
  | ok summary => rfl
  | error e => rfl

theorem mkDiscussionRound_advisors (cfg : ConsensusConfig) (oracle : RoundOracle) (j : Nat) :
    (mkDiscussionRound cfg oracle j).responses.map (fun r => r.advisorId) =
      cfg.advisors.map (fun a => a.id) := by
  simp only [mkDiscussionRound, roundResponses, List.map_map]
  refine List.map_congr_left ?_
  intro a _
  simp [advisorTask_advisorId]

theorem processConsensus_tool_requests (cfg : ConsensusConfig) (oracle : RoundOracle)
    (summaryOracle : AdvisorConfig → AgentOutcome) {p : String} (ts : List String)
    (h0 : List DiscussionRound) (k : Nat) (hp : p ≠ "")
    (hk1 : 1 ≤ k) (hk2 : k ≤ cfg.maxRounds)
    (hprev : ∀ j, 1 ≤ j → j < k →
      (checkConsensus (roundResponses cfg.advisors (oracle j))
        cfg.consensusThreshold).hasConsensus = false ∧
      roundToolRequests cfg.advisors (oracle j) = [])
    (hkc : (checkConsensus (roundResponses cfg.advisors (oracle k))
      cfg.consensusThreshold).hasConsensus = false)
    (hkt : roundToolRequests cfg.advisors (oracle k) ≠ []) :
    processConsensus cfg oracle summaryOracle (some p) (some ts) h0 =
      ⟨{ status := "tool_requests_needed"
       , round := some k
       , toolRequests := some (roundToolRequests cfg.advisors (oracle k))
       , discussionSummary := some (generateDiscussionSummary
           ((List.range' 1 k).map (mkDiscussionRound cfg oracle)))
       , nextAction := some "Please execute the requested tools and continue the consensus process" }
      , (List.range' 1 k).map (mkDiscussionRound cfg oracle)⟩ := by
  have hk : k + 1 - 1 = k := by omega
  unfold processConsensus
  rw [validateConsensusData_ok hp]
  rw [consensusLoop_early cfg oracle k hkc hkt cfg.maxRounds 1 [] hk1 (by omega) hprev]
  rw [hk]
  simp

theorem processConsensus_consensus_priority (cfg : ConsensusConfig) (oracle : RoundOracle)
    (summaryOracle : AdvisorConfig → AgentOutcome) {p : String} (ts : List String)
    (h0 : List DiscussionRound) (k : Nat) (hp : p ≠ "")
    (hk1 : 1 ≤ k) (hk2 : k ≤ cfg.maxRounds)
    (hprev : ∀ j, 1 ≤ j → j < k →
      (checkConsensus (roundResponses cfg.advisors (oracle j))
        cfg.consensusThreshold).hasConsensus = false ∧
      roundToolRequests cfg.advisors (oracle j) = [])
    (hkc : (checkConsensus (roundResponses cfg.advisors (oracle k))
      cfg.consensusThreshold).hasConsensus = true) :
    (processConsensus cfg oracle summaryOracle (some p) (some ts) h0).payload.status =
        "consensus_reached" ∧
      (processConsensus cfg oracle summaryOracle (some p) (some ts) h0).payload.toolRequests =
        none := by
  obtain ⟨r, hr, hcons⟩ := checkConsensus_consensus_of_has hkc
  have hne : r.response ≠ "" := roundResponses_response_ne_empty hr
  have htruthy : jsTruthy (checkConsensus (roundResponses cfg.advisors (oracle k))
      cfg.consensusThreshold).consensus = true := by
    rw [hcons]
    simpa [jsTruthy] using hne
  unfold processConsensus
  rw [validateConsensusData_ok hp]
  rw [consensusLoop_consensus cfg oracle k hkc cfg.maxRounds 1 [] hk1 (by omega) hprev]
  constructor
  · simp [htruthy]
  · simp

theorem processConsensus_ledger_length (cfg : ConsensusConfig) (oracle : RoundOracle)
    (summaryOracle : AdvisorConfig → AgentOutcome) (pOpt : Option String)
    (tsOpt : Option (List String)) :
    ((processConsensus cfg oracle summaryOracle pOpt tsOpt []).ledger).length ≤
      cfg.maxRounds + 1 := by
  unfold processConsensus
  cases hv : validateConsensusData pOpt tsOpt with
  | error e => simp
  | ok d =>
    have hlen := consensusLoop_history_length cfg oracle cfg.maxRounds 1 []
    cases hl : consensusLoop cfg oracle cfg.maxRounds 1 [] with
    | toolRequestsNeeded k reqs hist =>
      rw [hl] at hlen
      simp only [loopHistory] at hlen
      simpa using Nat.le_succ_of_le hlen
    | finished fc hist =>
      rw [hl] at hlen
      simp only [loopHistory, List.length_nil, Nat.zero_add] at hlen
      simp
      omega

theorem processConsensus_round_advisors (cfg : ConsensusConfig) (oracle : RoundOracle)
    (summaryOracle : AdvisorConfig → AgentOutcome) (pOpt : Option String)
    (tsOpt : Option (List String)) (rd : DiscussionRound)
    (hrd : rd ∈ (processConsensus cfg oracle summaryOracle pOpt tsOpt []).ledger) :
    rd.responses.map (fun r => r.advisorId) = cfg.advisors.map (fun a => a.id) := by
  unfold processConsensus at hrd
  cases hv : validateConsensusData pOpt tsOpt with
  | error e => rw [hv] at hrd; simp at hrd
  | ok d =>
    rw [hv] at hrd
    cases hl : consensusLoop cfg oracle cfg.maxRounds 1 [] with
    | toolRequestsNeeded k reqs hist =>
      rw [hl] at hrd
      simp only at hrd
      have hmem := consensusLoop_history_mem cfg oracle cfg.maxRounds 1 [] rd
        (by rw [hl]; exact hrd)
      rcases hmem with hin | ⟨j, hj⟩
      · simp at hin
      · rw [hj]; exact mkDiscussionRound_advisors cfg oracle j
    | finished fc hist =>
      rw [hl] at hrd
      simp only at hrd
      rcases List.mem_append.mp hrd with hin | hin
      · have hmem := consensusLoop_history_mem cfg oracle cfg.maxRounds 1 [] rd
          (by rw [hl]; exact hin)
        rcases hmem with hin2 | ⟨j, hj⟩
        · simp at hin2
        · rw [hj]; exact mkDiscussionRound_advisors cfg oracle j
      · have hrd2 : rd = DiscussionRound.mk (hist.length + 1)
            ((cfg.advisors.map (summaryTask summaryOracle)).map (fun v =>
              { advisorId := v.advisorId, response := v.summary, toolRequests := none }))
            fc := by simpa using hin
        rw [hrd2]
        simp only [List.map_map]
        refine List.map_congr_left ?_
        intro a _
        simp [summaryTask_advisorId]

theorem keysInOrder_const {t : String} :
    ∀ {l : List String}, l ≠ [] → (∀ x ∈ l, x = t) → keysInOrder l = [t] := by
  intro l
  induction l with
  | nil => intro h _; exact absurd rfl h
  | cons x xs ih =>
    intro _ hall
    have hx : x = t := hall x (List.mem_cons_self x xs)
    subst hx
    unfold keysInOrder
    have hfil : (keysInOrder xs).filter (fun k => k ≠ x) = [] := by
      rw [List.filter_eq_nil_iff]
      intro a ha
      have : a = x := hall a (List.mem_cons_of_mem x (mem_keysInOrder.mp ha))
      simp [this]
    rw [hfil]

theorem roundResponses_failure_markers (advisors : List AdvisorConfig)
    (oracle : AdvisorConfig → AgentOutcome) (e : String)
    (horacle : ∀ a, oracle a = Except.error e) :
    roundResponses advisors oracle = advisors.map (fun a =>
      { advisorId := a.id, response := "Error querying advisor: " ++ e, toolRequests := none }) := by
  unfold roundResponses
  refine List.map_congr_left ?_
  intro a _
  unfold advisorTask queryAdvisor
  rw [horacle a]
  rfl

theorem checkConsensus_failure_markers (advisors : List AdvisorConfig)
    (oracle : AdvisorConfig → AgentOutcome) (e : String) (τ : ℚ)
    (h2 : 2 ≤ advisors.length) (horacle : ∀ a, oracle a = Except.error e) :
    checkConsensus (roundResponses advisors oracle) τ =
      ⟨true, some ("Error querying advisor: " ++ e)⟩ := by
  rw [roundResponses_failure_markers advisors oracle e horacle]
  have hkeys : keysInOrder (responseTextsOf (advisors.map (fun a =>
      { advisorId := a.id, response := "Error querying advisor: " ++ e,
        toolRequests := none }))) = [normalizeResponse ("Error querying advisor: " ++ e)] := by
    refine keysInOrder_const ?_ ?_
    · cases advisors with
      | nil => simp at h2
      | cons a rest => simp [responseTextsOf]
    · intro x hx
      simp only [responseTextsOf, List.map_map, List.mem_map] at hx
      obtain ⟨a, _, ha⟩ := hx
      exact ha.symm
  rw [checkConsensus_def2, if_neg (by simp; omega), if_pos (by rw [hkeys]; rfl)]
  cases advisors with
  | nil => simp at h2
  | cons a rest => rfl

theorem processConsensus_not_failed (cfg : ConsensusConfig) (oracle : RoundOracle)
    (summaryOracle : AdvisorConfig → AgentOutcome) {p : String} (ts : List String)
    (hp : p ≠ "") :
    validateConsensusData (some p) (some ts) = .ok ⟨p, ts⟩ ∧
      (processConsensus cfg oracle summaryOracle (some p) (some ts) []).payload.status ≠
        "failed" := by
  refine ⟨validateConsensusData_ok hp ts, ?_⟩
  unfold processConsensus
  rw [validateConsensusData_ok hp]
  cases consensusLoop cfg oracle cfg.maxRounds 1 [] with
  | toolRequestsNeeded k reqs hist => simp
  | finished fc hist =>
    simp only []
    split <;> simp

theorem parse_warn_partition (s : String) :
    (parseToolRequestsWarnings s).length + (parseToolRequests s).length =
      (scanToolRequests s.toList).length := by
  unfold parseToolRequests parseToolRequestsWarnings
  generalize scanToolRequests s.toList = ms
  induction ms with
  | nil => rfl
  | cons m ms ih =>
    simp only [List.filterMap_cons]
    cases jsonParse m.2.1 with
    | none => simpa using by omega
    | some v => simpa using by omega

theorem takeWhile1_spec {p : Char → Bool} {s t r : List Char}
    (h : takeWhile1 p s = some (t, r)) : t ≠ [] ∧ ∀ c ∈ t, p c = true := by
  simp only [takeWhile1] at h
  split at h
  · exact absurd h (by simp)
  · rename_i hne
    obtain ⟨h1, _⟩ := Prod.mk.injEq .. ▸ Option.some.injEq .. ▸ h
    subst h1
    refine ⟨?_, fun c hc => List.mem_takeWhile_imp hc⟩
    intro hnil
    exact hne (by rw [hnil]; rfl)

theorem matchParamsPart_inner {s : List Char} {p : List Char × List Char}
    (h : matchParamsPart s = some p) : p.1 ≠ [] ∧ ∀ c ∈ p.1, ¬ c = rbrace := by
  simp only [matchParamsPart, bind, Option.bind_eq_some, pure, Option.some.injEq] at h
  obtain ⟨s1, h1, s2, h2, s3, h3, p4, h4, s5, h5, hfin⟩ := h
  obtain ⟨hne, hmem⟩ := takeWhile1_spec (t := p4.1) (r := p4.2) h4
  subst hfin
  refine ⟨hne, ?_⟩
  intro c hc
  simpa using hmem c hc

theorem matchToolRequestAt_params_shape {s : List Char} {m : String × String × String}
    {rest : List Char} (h : matchToolRequestAt s = some (m, rest)) :
    ∃ inner, inner ≠ [] ∧ (∀ c ∈ inner, ¬ c = rbrace) ∧
      m.2.1 = String.mk (lbrace :: (inner ++ [rbrace])) := by
  simp only [matchToolRequestAt, bind, Option.bind_eq_some, pure, Option.some.injEq] at h
  obtain ⟨p1, h1, p2, h2, p3, h3, hfin⟩ := h
  obtain ⟨hne, hmem⟩ := matchParamsPart_inner h2
  refine ⟨p2.1, hne, hmem, ?_⟩
  rw [Prod.mk.injEq] at hfin
  obtain ⟨hm, _⟩ := hfin
  rw [← hm]

theorem scanToolRequestsFuel_params_shape :
    ∀ (fuel : Nat) (s : List Char), ∀ m ∈ scanToolRequestsFuel fuel s,
      ∃ inner, inner ≠ [] ∧ (∀ c ∈ inner, ¬ c = rbrace) ∧
        m.2.1 = String.mk (lbrace :: (inner ++ [rbrace])) := by
  intro fuel
  induction fuel with
  | zero => intro s m hm; simp [scanToolRequestsFuel] at hm
  | succ fuel ih =>
    intro s m hm
    cases s with
    | nil => simp [scanToolRequestsFuel] at hm
    | cons c tl =>
      rw [scanToolRequestsFuel] at hm
      split at hm
      · rename_i m2 rest heq
        rcases List.mem_cons.mp hm with hmm | hmm
        · subst hmm
          exact matchToolRequestAt_params_shape heq
        · exact ih rest m hmm
      · exact ih tl m hm

theorem scanToolRequests_params_shape (s : List Char) :
    ∀ m ∈ scanToolRequests s,
      ∃ inner, inner ≠ [] ∧ (∀ c ∈ inner, ¬ c = rbrace) ∧
        m.2.1 = String.mk (lbrace :: (inner ++ [rbrace])) :=
  fun m hm => scanToolRequestsFuel_params_shape s.length s m hm

/-! ### Concrete fixtures for the worked instances -/

/-- Roster entry shaped like the first pre-configured advisor. -/
def advAlpha : AdvisorConfig :=
  ⟨"advisor_alpha", "Advisor Alpha", "", "moonshotai/kimi-k2"⟩

/-- Roster entry shaped like the second pre-configured advisor. -/
def advBeta : AdvisorConfig :=
  ⟨"advisor_beta", "Advisor Beta", "", "deepseek/deepseek-chat-v3-0324"⟩

/-- Two-advisor configuration, round limit 2, threshold 0.8. -/
def egCfg : ConsensusConfig := ⟨[advAlpha, advBeta], 2, mkRat 4 5⟩

/-- One-advisor configuration, round limit 1, threshold 0.8. -/
def egCfg1 : ConsensusConfig := ⟨[advAlpha], 1, mkRat 4 5⟩

/-- Response text containing one well-formed directive. -/
def egDirText : String :=
  "I think X. TOOL_REQUEST: \x7b\"tool\": \"web_search\", \"parameters\": \x7b\"query\": \"q\"\x7d, \"reason\": \"need data\"\x7d"

/-- Round oracle: the first advisor answers with a directive, the second
with a different plain text (no consensus, one aggregated request). -/
def egOracleSplit : RoundOracle := fun _ a =>
  if a.id = "advisor_alpha" then .ok (some egDirText) else .ok (some "I think Y.")

/-- Round oracle: every advisor answers with the identical directive text
(consensus and a non-empty aggregated request list in the same round). -/
def egOracleAgree : RoundOracle := fun _ _ => .ok (some egDirText)

/-- Round oracle: every advisor call throws the same transport error. -/
def egOracleFail : RoundOracle := fun _ _ => .error "ECONNRESET"

/-- Round oracle: every advisor answers with the same plain text. -/
def egOraclePlain : RoundOracle := fun _ _ => .ok (some "plain answer")

/-- Summary oracle: every summary query succeeds. -/
def egSummaryOracle : AdvisorConfig → AgentOutcome := fun _ => .ok (some "done")

/-- Four identical genuine answers plus one synthetic failure marker. -/
def egMarkerMixedResponses : List AdvisorResponse :=
  [⟨"a1", "Adopt X", none⟩, ⟨"a2", "Adopt X", none⟩, ⟨"a3", "Adopt X", none⟩,
   ⟨"a4", "Adopt X", none⟩, ⟨"a5", "Error querying advisor: boom", none⟩]

/-- Responses with a 3-of-4 majority whose normalized forms agree but whose
original texts differ in case and trailing whitespace. -/
def egYesResponses : List AdvisorResponse :=
  [⟨"a1", "Yes", none⟩, ⟨"a2", "no", none⟩, ⟨"a3", "YES  ", none⟩, ⟨"a4", "yes", none⟩]

/-- Two responses that are identical after normalization only. -/
def egPairResponses : List AdvisorResponse :=
  [⟨"a1", "Adopt X", none⟩, ⟨"a2", "adopt x ", none⟩]

/-- Two `__proto__` texts and one `x`: a 2-of-3 normalized majority that
the tally object cannot record as an own property. -/
def egProtoResponses : List AdvisorResponse :=
  [⟨"a1", "__proto__", none⟩, ⟨"a2", "__proto__", none⟩, ⟨"a3", "x", none⟩]

/-- Two numeric-string responses: both texts are array-index keys, so the
tally object enumerates them in ascending numeric order rather than in
insertion order. -/
def egNumericResponses : List AdvisorResponse :=
  [⟨"a1", "7", none⟩, ⟨"a2", "3", none⟩]

/-- Response with one well-formed directive and one whose parameters text
does not parse as JSON. -/
def egTwoDirectives : String :=
  "Analysis. TOOL_REQUEST: \x7b\"tool\": \"web_search\", \"parameters\": \x7b\"query\": \"remote work stats\"\x7d, \"reason\": \"need data\"\x7d and TOOL_REQUEST: \x7b\"tool\": \"calc\", \"parameters\": \x7b\"x\": \x7d, \"reason\": \"compute\"\x7d"

/-- Directive whose parameters object is the empty object literal. -/
def egEmptyParams : String :=
  "TOOL_REQUEST: \x7b\"tool\": \"t\", \"parameters\": \x7b\x7d, \"reason\": \"r\"\x7d"

/-- Directive whose keys are not in the order tool, parameters, reason. -/
def egReorderedKeys : String :=
  "TOOL_REQUEST: \x7b\"parameters\": \x7b\"a\": 1\x7d, \"tool\": \"t\", \"reason\": \"r\"\x7d"

/-- Directive whose parameters object contains a balanced nested object. -/
def egNestedParams : String :=
  "TOOL_REQUEST: \x7b\"tool\": \"t\", \"parameters\": \x7b\"a\": \x7b\"b\": 1\x7d\x7d, \"reason\": \"r\"\x7d"

/-- Directive whose parameters object has an unclosed nested object, so the
pattern still matches with a capture truncated at the first closing
bracket and only the JSON parse fails. -/
def egUnclosedNested : String :=
  "TOOL_REQUEST: \x7b\"tool\": \"t\", \"parameters\": \x7b\"a\": \x7b\"b\": 1\x7d, \"reason\": \"r\"\x7d"

set_option maxRecDepth 65536

/-! ### The claims -/

/-- C5 counterexample: with responses `__proto__`, `__proto__`, `x` and
threshold 3/5 the maximal normalized-text occurrence count is 2 of 3,
which reaches the threshold, yet the program finds no consensus: assigning
under the key `__proto__` invokes the inherited accessor's setter, which
ignores a non-object value, so the two `__proto__` texts never become own
properties of the tally object and the only tallied count is 1 of 3. -/
theorem c5_counterexample :
    2 ≤ egProtoResponses.length ∧
    mkRat 3 5 ≤ (maxAgreementCount egProtoResponses : ℚ) / (egProtoResponses.length : ℚ) ∧
    (checkConsensus egProtoResponses (mkRat 3 5)).hasConsensus = false := by
  refine ⟨by decide, ?_, by decide⟩
  have h1 : maxAgreementCount egProtoResponses = 2 := by decide
  have h2 : egProtoResponses.length = 3 := by decide
  rw [h1, h2, Rat.mkRat_eq_div]
  norm_num

/-- C5 (amended): `checkConsensus` never finds consensus with fewer than
two responses; with at least two responses whose case-folded, trimmed
texts stay clear of the tally object's inherited key space (no text equal
to `__proto__` and none equal to an `Object.prototype` member name such as
`constructor`), it returns `hasConsensus = true` exactly when the maximal
occurrence count among the normalized texts divided by the total number of
responses reaches the threshold τ (comparison with `≥`, not `>`); and with
at least two responses whose normalized texts are all identical - reserved
keys included - it declares consensus for every τ in [0, 1], even τ = 1,
through the uniqueness short-circuit that precedes the tally. -/
theorem c5_tally_threshold_characterization (rs : List AdvisorResponse) (τ : ℚ)
    (h0 : 0 ≤ τ) (h1 : τ ≤ 1) :
    (rs.length < 2 → (checkConsensus rs τ).hasConsensus = false) ∧
    ((∀ t ∈ responseTextsOf rs, t ≠ "__proto__" ∧ jsCorruptedTallyKey t = false) →
      2 ≤ rs.length →
      ((checkConsensus rs τ).hasConsensus = true ↔
        τ ≤ (maxAgreementCount rs : ℚ) / (rs.length : ℚ))) ∧
    (2 ≤ rs.length → (∀ t ∈ responseTextsOf rs, ∀ u ∈ responseTextsOf rs, t = u) →
      (checkConsensus rs τ).hasConsensus = true) := by
  refine ⟨fun h => by rw [checkConsensus_lt_two h],
    fun hclean h2 => checkConsensus_hasConsensus_iff h1 h2 hclean,
    fun h2 hall => ?_⟩
  have hne : rs ≠ [] := by intro hnil; subst hnil; simp at h2
  have htne : responseTextsOf rs ≠ [] := by simpa [responseTextsOf] using hne
  obtain ⟨t0, ht0⟩ := List.exists_mem_of_ne_nil _ htne
  have hu : keysInOrder (responseTextsOf rs) = [t0] :=
    keysInOrder_const htne (fun x hx => hall x hx t0 ht0)
  rw [checkConsensus_def2, if_neg (by omega), if_pos (by rw [hu]; rfl)]

/-- C5 witness: two responses that differ only in case and trailing
whitespace are clean tally keys, satisfy the ratio characterization, and
reach consensus even at τ = 1. -/
theorem c5_witness :
    (0 ≤ (1 : ℚ)) ∧
    ((egPairResponses.length < 2 →
        (checkConsensus egPairResponses 1).hasConsensus = false) ∧
      ((∀ t ∈ responseTextsOf egPairResponses,
          t ≠ "__proto__" ∧ jsCorruptedTallyKey t = false) →
        2 ≤ egPairResponses.length →
        ((checkConsensus egPairResponses 1).hasConsensus = true ↔
          (1 : ℚ) ≤ (maxAgreementCount egPairResponses : ℚ) / (egPairResponses.length : ℚ))) ∧
      (2 ≤ egPairResponses.length →
        (∀ t ∈ responseTextsOf egPairResponses, ∀ u ∈ responseTextsOf egPairResponses,
          t = u) →
        (checkConsensus egPairResponses 1).hasConsensus = true)) ∧
    (checkConsensus egPairResponses 1).hasConsensus = true :=
  ⟨by norm_num,
    c5_tally_threshold_characterization egPairResponses 1 (by norm_num) (by norm_num),
    by decide⟩

/-- C6 counterexample: with responses `7` then `3` and threshold 1/2 the
two counts tie at one each and consensus is declared, but the tally
object's key enumeration puts the array-index keys in ascending numeric
order, so the program returns the second response `3` while the first
response in input order attaining the maximal count is `7`. -/
theorem c6_counterexample :
    (checkConsensus egNumericResponses (mkRat 1 2)).hasConsensus = true ∧
    (checkConsensus egNumericResponses (mkRat 1 2)).consensus = some "3" ∧
    (firstMaxResponse egNumericResponses).map (fun r => r.response) = some "7" :=
  ⟨by decide, by decide, by decide⟩

/-- C6 (amended): whenever `checkConsensus` declares consensus on responses
whose normalized texts are neither canonical array-index strings (which the
tally object's key enumeration reorders numerically ascending ahead of
insertion order) nor `Object.prototype` member names, the returned
consensus text is the original, non-normalized response text of the first
response in the round's input order whose normalized form attains the
maximal occurrence count; normalization is used for comparison only. -/
theorem c6_selection_under_key_order (rs : List AdvisorResponse) (τ : ℚ)
    (hclean : ∀ t ∈ responseTextsOf rs, t ≠ "__proto__" ∧ jsCorruptedTallyKey t = false)
    (hidx : ∀ t ∈ responseTextsOf rs, isArrayIndexString t = false)
    (h : (checkConsensus rs τ).hasConsensus = true) :
    (checkConsensus rs τ).consensus = (firstMaxResponse rs).map (fun r => r.response) :=
  checkConsensus_consensus_spec hclean hidx h

/-- C6 witness: the 3-of-4 majority on normalized "yes" - non-numeric,
non-reserved keys - returns the original text "Yes" of the earliest
majority response, not its normalized form. -/
theorem c6_witness :
    (checkConsensus egYesResponses (mkRat 1 2)).consensus =
      (firstMaxResponse egYesResponses).map (fun r => r.response) ∧
    (checkConsensus egYesResponses (mkRat 1 2)).consensus = some "Yes" :=
  ⟨c6_selection_under_key_order egYesResponses (mkRat 1 2) (by decide) (by decide) (by decide),
    by decide⟩

/-- C9: every scanned directive occurrence is either pushed as a request or
- when its parameters text fails to parse - skipped with one warning, so
warnings and requests partition the matches and no malformed occurrence
aborts `parseToolRequests`; on a response with one well-formed and one
unparsable directive exactly the well-formed one is extracted and exactly
one warning is logged. -/
theorem c9_malformed_directive_skipped :
    (∀ s : String, (parseToolRequestsWarnings s).length + (parseToolRequests s).length =
      (scanToolRequests s.toList).length) ∧
    parseToolRequests egTwoDirectives =
      [⟨"web_search", Json.obj [("query", Json.str "remote work stats")], "need data"⟩] ∧
    parseToolRequestsWarnings egTwoDirectives = ["\x7b\"x\": \x7d"] :=
  ⟨parse_warn_partition, rfl, rfl⟩

/-- C10 counterexample: a directive whose parameters object contains a
balanced nested object literal does not match the scan pattern at all - it
is dropped with no scan match, no parse attempt and no warning - rather
than being dropped via the parse-failure (warning) path as claimed. -/
theorem c10_counterexample :
    scanToolRequests egNestedParams.toList = [] ∧
    parseToolRequests egNestedParams = [] ∧
    parseToolRequestsWarnings egNestedParams = [] :=
  ⟨rfl, rfl, rfl⟩

/-- C10 (amended): empty-object parameters and out-of-order keys make the
occurrence unmatched and silently dropped, as does a balanced nested
object (the capture would stop at its first closing bracket, after which
the required comma is absent); every matched parameters capture is
bracketed text whose interior contains no closing bracket, and the
parse-failure warning path is reached only when the text after such a
truncated capture still completes the pattern, as with an unclosed nested
object. -/
theorem c10_unmatched_silently_dropped :
    (∀ s : List Char, ∀ m ∈ scanToolRequests s,
      ∃ inner, inner ≠ [] ∧ (∀ c ∈ inner, ¬ c = rbrace) ∧
        m.2.1 = String.mk (lbrace :: (inner ++ [rbrace]))) ∧
    scanToolRequests egEmptyParams.toList = [] ∧
    scanToolRequests egReorderedKeys.toList = [] ∧
    (scanToolRequests egNestedParams.toList = [] ∧
      parseToolRequestsWarnings egNestedParams = []) ∧
    (parseToolRequests egUnclosedNested = [] ∧
      parseToolRequestsWarnings egUnclosedNested = ["\x7b\"a\": \x7b\"b\": 1\x7d"]) :=
  ⟨fun s => scanToolRequests_params_shape s, rfl, rfl, ⟨rfl, rfl⟩, ⟨rfl, rfl⟩⟩

/-- C10 witness: the capture of the matched unclosed-nested directive is
bracketed text truncated at the first closing bracket. -/
theorem c10_witness :
    ∃ inner, inner ≠ [] ∧ (∀ c ∈ inner, ¬ c = rbrace) ∧
      (("t", "\x7b\"a\": \x7b\"b\": 1\x7d", "r") : String × String × String).2.1 =
        String.mk (lbrace :: (inner ++ [rbrace])) :=
  c10_unmatched_silently_dropped.1 egUnclosedNested.toList
    ("t", "\x7b\"a\": \x7b\"b\": 1\x7d", "r") (by decide)

/-- C1 counterexample: in a run whose first round aggregates one directive
and finds no consensus, the early-return payload's status is the string
"tool_requests_needed" - not "awaiting_information" and not any of the four
statuses the specification declares. -/
theorem c1_counterexample :
    (checkConsensus (roundResponses egCfg.advisors (egOracleSplit 1))
      egCfg.consensusThreshold).hasConsensus = false ∧
    (roundToolRequests egCfg.advisors (egOracleSplit 1)).length = 1 ∧
    (processConsensus egCfg egOracleSplit egSummaryOracle (some "p")
      (some ["web_search"]) []).payload.status = "tool_requests_needed" ∧
    (processConsensus egCfg egOracleSplit egSummaryOracle (some "p")
      (some ["web_search"]) []).payload.status ≠ "awaiting_information" :=
  ⟨by decide, by decide, by decide, by decide⟩

/-- C1 (amended): when round `k` is the first round reached with a
non-empty aggregated request list and that round finds no consensus, the
run ends at once with the payload `status := "tool_requests_needed"` (the
code's name for the specification's awaiting-information state), carrying
the round number, the aggregated requests, the discussion summary and the
next-action guidance string, and the ledger holds exactly rounds 1..k - no
summary round is recorded before this return. -/
theorem c1_early_return_payload (cfg : ConsensusConfig) (oracle : RoundOracle)
    (summaryOracle : AdvisorConfig → AgentOutcome) (p : String) (ts : List String)
    (h0 : List DiscussionRound) (k : Nat) (hp : p ≠ "")
    (hk1 : 1 ≤ k) (hk2 : k ≤ cfg.maxRounds)
    (hprev : ∀ j, 1 ≤ j → j < k →
      (checkConsensus (roundResponses cfg.advisors (oracle j))
        cfg.consensusThreshold).hasConsensus = false ∧
      roundToolRequests cfg.advisors (oracle j) = [])
    (hkc : (checkConsensus (roundResponses cfg.advisors (oracle k))
      cfg.consensusThreshold).hasConsensus = false)
    (hkt : roundToolRequests cfg.advisors (oracle k) ≠ []) :
    processConsensus cfg oracle summaryOracle (some p) (some ts) h0 =
      ⟨{ status := "tool_requests_needed"
       , round := some k
       , toolRequests := some (roundToolRequests cfg.advisors (oracle k))
       , discussionSummary := some (generateDiscussionSummary
           ((List.range' 1 k).map (mkDiscussionRound cfg oracle)))
       , nextAction := some "Please execute the requested tools and continue the consensus process" }
      , (List.range' 1 k).map (mkDiscussionRound cfg oracle)⟩ :=
  processConsensus_tool_requests cfg oracle summaryOracle ts h0 k hp hk1 hk2 hprev hkc hkt

/-- C1 witness: the counterexample run instantiates the amended payload
equation at round 1. -/
theorem c1_witness :
    processConsensus egCfg egOracleSplit egSummaryOracle (some "p") (some ["web_search"]) [] =
      ⟨{ status := "tool_requests_needed"
       , round := some 1
       , toolRequests := some (roundToolRequests egCfg.advisors (egOracleSplit 1))
       , discussionSummary := some (generateDiscussionSummary
           ((List.range' 1 1).map (mkDiscussionRound egCfg egOracleSplit)))
       , nextAction := some "Please execute the requested tools and continue the consensus process" }
      , (List.range' 1 1).map (mkDiscussionRound egCfg egOracleSplit)⟩ :=
  c1_early_return_payload egCfg egOracleSplit egSummaryOracle "p" ["web_search"] [] 1
    (by decide) (by decide) (by decide)
    (fun j hj1 hj2 => absurd hj2 (by omega))
    (by decide)
    (by intro hnil; exact absurd (congrArg List.length hnil) (by decide))

/-- C2 counterexample: `checkConsensus` counts synthetic failure-marker
responses like any others - with four identical genuine answers and one
marker the ratio is 4/5, so τ = 0.9 fails although the ratio over the
genuine answers alone would be 1 - and a round whose every response is the
identical failure marker reaches consensus on the marker text itself. -/
theorem c2_counterexample :
    (checkConsensus egMarkerMixedResponses (mkRat 9 10)).hasConsensus = false ∧
    (processConsensus egCfg egOracleFail egSummaryOracle (some "p")
      (some []) []).payload.status = "consensus_reached" ∧
    (processConsensus egCfg egOracleFail egSummaryOracle (some "p")
      (some []) []).payload.finalConsensus = some "Error querying advisor: ECONNRESET" :=
  ⟨by decide, by decide, by decide⟩

/-- C2 (amended): the Agreement Evaluator does not exclude failure-marker
responses - every response counts toward the tally and the denominator -
so a round of two or more advisors whose calls all throw the same error
reaches consensus on the shared synthetic marker text. -/
theorem c2_markers_counted (advisors : List AdvisorConfig)
    (oracle : AdvisorConfig → AgentOutcome) (e : String) (τ : ℚ)
    (h2 : 2 ≤ advisors.length) (horacle : ∀ a, oracle a = Except.error e) :
    checkConsensus (roundResponses advisors oracle) τ =
      ⟨true, some ("Error querying advisor: " ++ e)⟩ :=
  checkConsensus_failure_markers advisors oracle e τ h2 horacle

/-- C2 witness: the two-advisor all-failing round agrees on its marker. -/
theorem c2_witness :
    checkConsensus (roundResponses egCfg.advisors (egOracleFail 1)) (mkRat 4 5) =
      ⟨true, some ("Error querying advisor: " ++ "ECONNRESET")⟩ :=
  c2_markers_counted egCfg.advisors (egOracleFail 1) "ECONNRESET" (mkRat 4 5)
    (by decide) (fun a => rfl)

/-- C3 counterexample: an empty `availableTools` array passes validation
(arrays are truthy in JavaScript, empty or not), and the run proceeds to
execute its rounds and terminate normally instead of aborting with status
"failed". -/
theorem c3_counterexample :
    validateConsensusData (some "p") (some []) = Except.ok ⟨"p", []⟩ ∧
    (processConsensus egCfg1 egOraclePlain egSummaryOracle (some "p")
      (some []) []).payload.status = "max_rounds_reached" ∧
    (processConsensus egCfg1 egOraclePlain egSummaryOracle (some "p")
      (some []) []).ledger.length = 2 :=
  ⟨rfl, by decide, by decide⟩

/-- C3 (amended): structural validation requires a present, non-empty
problem string and a present array for `availableTools`; an empty array is
accepted, and with any non-empty problem the run never returns status
"failed". -/
theorem c3_empty_capabilities_accepted (cfg : ConsensusConfig) (oracle : RoundOracle)
    (summaryOracle : AdvisorConfig → AgentOutcome) (p : String) (ts : List String)
    (hp : p ≠ "") :
    validateConsensusData (some p) (some ts) = .ok ⟨p, ts⟩ ∧
    (processConsensus cfg oracle summaryOracle (some p) (some ts) []).payload.status ≠
      "failed" :=
  processConsensus_not_failed cfg oracle summaryOracle ts hp

/-- C3 witness: the empty capability list is accepted and the run ends in a
non-failed status. -/
theorem c3_witness :
    validateConsensusData (some "p") (some ([] : List String)) = .ok ⟨"p", []⟩ ∧
    (processConsensus egCfg1 egOraclePlain egSummaryOracle (some "p")
      (some []) []).payload.status ≠ "failed" :=
  c3_empty_capabilities_accepted egCfg1 egOraclePlain egSummaryOracle "p" [] (by decide)

/-- C4: every round recorded in the ledger of a run - fan-out rounds and
the summary round alike, with any pattern of per-advisor failures - holds
exactly one response per configured advisor, in roster order and carrying
that advisor's own id; a throwing invocation is replaced by a synthetic
failure-marker response and never aborts the join or the run. -/
theorem c4_one_response_per_advisor (cfg : ConsensusConfig) (oracle : RoundOracle)
    (summaryOracle : AdvisorConfig → AgentOutcome) (pOpt : Option String)
    (tsOpt : Option (List String)) (rd : DiscussionRound)
    (hrd : rd ∈ (processConsensus cfg oracle summaryOracle pOpt tsOpt []).ledger) :
    rd.responses.map (fun r => r.advisorId) = cfg.advisors.map (fun a => a.id) :=
  processConsensus_round_advisors cfg oracle summaryOracle pOpt tsOpt rd hrd

/-- C4 witness: the first round of the early-exit run carries one response
per configured advisor with the advisors' own ids. -/
theorem c4_witness :
    (mkDiscussionRound egCfg egOracleSplit 1).responses.map (fun r => r.advisorId) =
      egCfg.advisors.map (fun a => a.id) :=
  c4_one_response_per_advisor egCfg egOracleSplit egSummaryOracle (some "p")
    (some ["web_search"]) (mkDiscussionRound egCfg egOracleSplit 1)
    (by
      rw [processConsensus_tool_requests egCfg egOracleSplit egSummaryOracle ["web_search"] [] 1
        (by decide) (by decide) (by decide)
        (fun j hj1 hj2 => absurd hj2 (by omega))
        (by decide)
        (by intro hnil; exact absurd (congrArg List.length hnil) (by decide))]
      simp [List.range'])

/-- C7: if round `k` is reached (all earlier rounds clean) and its own
responses pass the consensus check, the run terminates with status
"consensus_reached" even when that same round also aggregated a non-empty
request list: the consensus check runs before the directive early-exit, so
the returned payload is the terminal one, without the early-return's
`toolRequests` field. -/
theorem c7_consensus_beats_directives (cfg : ConsensusConfig) (oracle : RoundOracle)
    (summaryOracle : AdvisorConfig → AgentOutcome) (p : String) (ts : List String)
    (h0 : List DiscussionRound) (k : Nat) (hp : p ≠ "")
    (hk1 : 1 ≤ k) (hk2 : k ≤ cfg.maxRounds)
    (hprev : ∀ j, 1 ≤ j → j < k →
      (checkConsensus (roundResponses cfg.advisors (oracle j))
        cfg.consensusThreshold).hasConsensus = false ∧
      roundToolRequests cfg.advisors (oracle j) = [])
    (hkc : (checkConsensus (roundResponses cfg.advisors (oracle k))
      cfg.consensusThreshold).hasConsensus = true)
    (_hkt : roundToolRequests cfg.advisors (oracle k) ≠ []) :
    (processConsensus cfg oracle summaryOracle (some p) (some ts) h0).payload.status =
        "consensus_reached" ∧
      (processConsensus cfg oracle summaryOracle (some p) (some ts) h0).payload.toolRequests =
        none :=
  processConsensus_consensus_priority cfg oracle summaryOracle ts h0 k hp hk1 hk2 hprev hkc

/-- C7 witness: both advisors return the identical directive-bearing text,
so round 1 has consensus and two aggregated requests, and consensus wins. -/
theorem c7_witness :
    (processConsensus egCfg egOracleAgree egSummaryOracle (some "p")
      (some ["web_search"]) []).payload.status = "consensus_reached" ∧
    (processConsensus egCfg egOracleAgree egSummaryOracle (some "p")
      (some ["web_search"]) []).payload.toolRequests = none :=
  c7_consensus_beats_directives egCfg egOracleAgree egSummaryOracle "p" ["web_search"] [] 1
    (by decide) (by decide) (by decide)
    (fun j hj1 hj2 => absurd hj2 (by omega))
    (by decide)
    (by intro hnil; exact absurd (congrArg List.length hnil) (by decide))

/-- C8: for every run started on a fresh instance ledger, the final ledger
never holds more rounds than the configured round limit plus one (the
optional terminal summary round): the loop appends one round per iteration
for at most `maxRounds` iterations, at most one summary round follows, and
rounds are only ever appended. -/
theorem c8_ledger_bounded (cfg : ConsensusConfig) (oracle : RoundOracle)
    (summaryOracle : AdvisorConfig → AgentOutcome) (pOpt : Option String)
    (tsOpt : Option (List String)) :
    ((processConsensus cfg oracle summaryOracle pOpt tsOpt []).ledger).length ≤
      cfg.maxRounds + 1 :=
  processConsensus_ledger_length cfg oracle summaryOracle pOpt tsOpt
